import Mathlib

/-!
# ArchSync — verification of the fact-extraction / model-synthesis pipeline

A shallow embedding of the ArchSync core (tools/archsync/src/archsync): the
extraction engine, the per-language analyzer error wrappers, the architecture
model builder, the cycle detector of the diff rules engine, and the CI gate
decision of the CLI.  Each definition mirrors one Python function of the
source tree; hash-based identifiers (utils.stable_id, a 16-hex-character SHA-1
prefix that the source treats as collision-free) are modelled by injective
constructors / by the joined pre-image, and external pure collaborators
(regex search, glob matching, the LLM enrichment provider) are threaded as
explicit function parameters.
-/

namespace ArchSync

/-! ## Python string primitives used by the source -/

/-- Python `str.strip()` whitespace set (the ASCII whitespace characters). -/
def pyWhitespace (c : Char) : Bool :=
  c = ' ' ∨ c = '\t' ∨ c = '\n' ∨ c = '\r' ∨ c = '\x0b' ∨ c = '\x0c'

/-- Python `str.strip()`: drop leading and trailing whitespace. -/
def pyStrip (s : String) : String :=
  ((s.toList.dropWhile pyWhitespace).reverse.dropWhile pyWhitespace).reverse.asString

/-- Split a character list at every occurrence of the separator (Python
`str.split(sep)` over a one-character separator, keeping empty fields). -/
def splitCharAux (c : Char) : List Char → List Char → List (List Char)
  | [], acc => [acc.reverse]
  | x :: xs, acc =>
    if x = c then acc.reverse :: splitCharAux c xs [] else splitCharAux c xs (x :: acc)

/-- Python `s.split(c)` for a one-character separator. -/
def pySplitChar (s : String) (c : Char) : List String :=
  (splitCharAux c s.toList []).map List.asString

/-- Python `sep.join(parts)`. -/
def pyJoin (sep : String) : List String → String
  | [] => ""
  | p :: rest => rest.foldl (fun acc q => acc ++ sep ++ q) p

/-- Python `s.startswith(p)`. -/
def pyStartswith (s p : String) : Bool :=
  decide (s.toList.take p.toList.length = p.toList)

/-- Python `s.endswith(p)`. -/
def pyEndswith (s p : String) : Bool :=
  decide (s.toList.reverse.take p.toList.length = p.toList.reverse)

/-- Python `c in s` for a one-character needle. -/
def pyContainsChar (s : String) (c : Char) : Bool :=
  s.toList.contains c

/-- Python `s[:n]` (by code points, which coincide for the sources in play). -/
def pyTake (s : String) (n : Nat) : String :=
  (s.toList.take n).asString

/-- Python `str.splitlines()` for LF-separated text (the line discipline the
repository's sources use): split on newline, without a trailing empty line. -/
def pySplitlines (s : String) : List String :=
  if s = "" then []
  else
    let parts := pySplitChar s '\n'
    if pyEndswith s "\n" then parts.dropLast else parts

/-- Group the non-whitespace runs of a character list (Python `str.split()`
with no separator, which discards empty fields). -/
def splitWsAux : List Char → List Char → List (List Char)
  | [], acc => if acc.isEmpty then [] else [acc.reverse]
  | x :: xs, acc =>
    if pyWhitespace x then
      if acc.isEmpty then splitWsAux xs [] else acc.reverse :: splitWsAux xs []
    else splitWsAux xs (x :: acc)

/-- Python `str.split()` with no separator. -/
def pySplitWs (s : String) : List String :=
  (splitWsAux s.toList []).map List.asString

/-- Python `name.split(" ", 1)[1]`: everything after the first space
(meaningful when the name contains a space). -/
def afterFirstSpace (name : String) : String :=
  pyJoin " " ((pySplitChar name ' ').tail)

/-- Python `value.split("?", 1)[0]`: the text before the first question mark. -/
def beforeQuery (value : String) : String :=
  ((pySplitChar value '?').headD value)

/-- Python `str.lower()`, restricted to the ASCII case mapping: the strings the
source lowercases (severities, protocols, HTTP methods, directions, file
suffixes, route names) are ASCII. -/
def pyLower (s : String) : String :=
  (s.toList.map Char.toLower).asString

/-- Python `str.upper()` under the same ASCII restriction. -/
def pyUpper (s : String) : String :=
  (s.toList.map Char.toUpper).asString

/-! ## CLI gate (archsync/cli.py)

severity ranking and the `ci` command's pass/fail decision. -/

/-- cli._severity_rank: ordinal severity rank via a dict lookup on
value.lower() with default 3. -/
def severityRank (value : String) : Nat :=
  if pyLower value = "none" then 0
  else if pyLower value = "low" then 1
  else if pyLower value = "medium" then 2
  else if pyLower value = "high" then 3
  else if pyLower value = "critical" then 4
  else 3

/-- schemas.LayerViolation. -/
structure LayerViolation where
  rule : String
  src_module : String
  dst_module : String
  severity : String
  details : String
  deriving DecidableEq, Repr

/-- cli.ci: highest severity rank among the report's violations
(default 0), raised to the rank of "critical" when the report has cycles. -/
def ciHighest (violations : List LayerViolation) (cycles : List (List String)) : Nat :=
  let highest := (violations.map (fun v => severityRank v.severity)).foldl max 0
  if cycles ≠ [] then max highest (severityRank "critical") else highest

/-- cli.ci gate decision: a non-zero exit is raised iff the highest severity
meets the threshold and the threshold rank is positive. -/
def ciGateFails (violations : List LayerViolation) (cycles : List (List String))
    (failOn : String) : Bool :=
  let threshold := severityRank failOn
  let highest := ciHighest violations cycles
  decide (highest ≥ threshold ∧ threshold > 0)

lemma severityRank_eq_zero_iff (s : String) :
    severityRank s = 0 ↔ pyLower s = "none" := by
  unfold severityRank
  split_ifs with h1 h2 h3 h4 h5 <;> simp_all

/-- C6: the CI gate maps severities to none=0 < low=1 < medium=2 < high=3 <
critical=4, takes the highest rank among the report's violations (raised to
critical when the report has a cycle), and fails exactly when that highest
rank meets the threshold's rank and the threshold is not "none". -/
theorem ci_gate_decision_c6 :
    (severityRank "none" = 0 ∧ severityRank "low" = 1 ∧ severityRank "medium" = 2 ∧
      severityRank "high" = 3 ∧ severityRank "critical" = 4) ∧
    (∀ violations cycles failOn,
      ciGateFails violations cycles failOn = true ↔
        (severityRank failOn ≤ ciHighest violations cycles ∧ pyLower failOn ≠ "none")) ∧
    (∀ violations cycles, cycles ≠ [] →
      ciHighest violations cycles =
        max ((violations.map (fun v => severityRank v.severity)).foldl max 0) 4) := by
  refine ⟨by decide, ?_, ?_⟩
  · intro violations cycles failOn
    simp only [ciGateFails, decide_eq_true_eq, ge_iff_le, gt_iff_lt]
    constructor
    · rintro ⟨h1, h2⟩
      refine ⟨h1, fun hnone => ?_⟩
      rw [(severityRank_eq_zero_iff failOn).mpr hnone] at h2
      exact Nat.lt_irrefl 0 h2
    · rintro ⟨h1, h2⟩
      exact ⟨h1, Nat.pos_of_ne_zero fun h0 => h2 ((severityRank_eq_zero_iff failOn).mp h0)⟩
  · intro violations cycles h
    have hc : severityRank "critical" = 4 := by decide
    simp only [ciHighest, if_pos h, hc]

/-- Witness for C6 at concrete inputs. -/
theorem ci_gate_decision_c6_witness :
    (([["A", "B", "A"]] : List (List String)) ≠ [] ∧
      ciHighest [] [["A", "B", "A"]] =
        max ((([] : List LayerViolation).map (fun v => severityRank v.severity)).foldl max 0) 4) ∧
    (ciGateFails [] [["A", "B", "A"]] "high" = true ↔
      (severityRank "high" ≤ ciHighest [] [["A", "B", "A"]] ∧ pyLower "high" ≠ "none")) :=
  ⟨⟨by decide, ci_gate_decision_c6.2.2 [] [["A", "B", "A"]] (by decide)⟩,
    ci_gate_decision_c6.2.1 [] [["A", "B", "A"]] "high"⟩

/-- C10: every severity string outside the five known values (compared on the
lowercased text) ranks 3, the rank of "high"; so an unknown fail_on threshold
gates like "high" and an unknown violation severity counts as "high". -/
theorem severity_rank_unknown_c10 :
    (∀ s : String, pyLower s ≠ "none" → pyLower s ≠ "low" → pyLower s ≠ "medium" →
      pyLower s ≠ "high" → pyLower s ≠ "critical" →
      severityRank s = 3 ∧ severityRank s = severityRank "high") ∧
    (∀ violations cycles (failOn : String), pyLower failOn ≠ "none" → pyLower failOn ≠ "low" →
      pyLower failOn ≠ "medium" → pyLower failOn ≠ "high" → pyLower failOn ≠ "critical" →
      ciGateFails violations cycles failOn = ciGateFails violations cycles "high") ∧
    (∀ (v : LayerViolation) violations cycles, pyLower v.severity ≠ "none" →
      pyLower v.severity ≠ "low" → pyLower v.severity ≠ "medium" → pyLower v.severity ≠ "high" →
      pyLower v.severity ≠ "critical" →
      ciHighest (v :: violations) cycles =
        ciHighest ({ v with severity := "high" } :: violations) cycles) := by
  have base : ∀ s : String, pyLower s ≠ "none" → pyLower s ≠ "low" → pyLower s ≠ "medium" →
      pyLower s ≠ "high" → pyLower s ≠ "critical" → severityRank s = 3 := by
    intro s h1 h2 h3 h4 h5
    unfold severityRank
    simp [h1, h2, h3, h4, h5]
  refine ⟨?_, ?_, ?_⟩
  · intro s h1 h2 h3 h4 h5
    exact ⟨base s h1 h2 h3 h4 h5, by rw [base s h1 h2 h3 h4 h5]; decide⟩
  · intro violations cycles failOn h1 h2 h3 h4 h5
    have hr : severityRank failOn = severityRank "high" := by
      rw [base failOn h1 h2 h3 h4 h5]; decide
    simp [ciGateFails, hr]
  · intro v violations cycles h1 h2 h3 h4 h5
    have hr : severityRank v.severity = severityRank "high" := by
      rw [base v.severity h1 h2 h3 h4 h5]; decide
    simp [ciHighest, hr]

/-- Witness for C10 at the concrete unknown severity "blocker". -/
theorem severity_rank_unknown_c10_witness :
    (severityRank "blocker" = 3 ∧ severityRank "blocker" = severityRank "high") ∧
    ciGateFails [] [] "blocker" = ciGateFails [] [] "high" ∧
    ciHighest [⟨"r", "a", "b", "blocker", "d"⟩] [] =
      ciHighest [⟨"r", "a", "b", "high", "d"⟩] [] :=
  ⟨severity_rank_unknown_c10.1 "blocker" (by decide) (by decide) (by decide) (by decide)
      (by decide),
    severity_rank_unknown_c10.2.1 [] [] "blocker" (by decide) (by decide) (by decide) (by decide)
      (by decide),
    severity_rank_unknown_c10.2.2 ⟨"r", "a", "b", "blocker", "d"⟩ [] [] (by decide) (by decide)
      (by decide) (by decide) (by decide)⟩

/-! ## Model-level identifiers and schema (archsync/schemas.py)

utils.stable_id returns a 16-hex-character SHA-1 prefix of its
pipe-joined parts; the source uses it as a collision-free content-addressed
id (and its literal ids "system:&lt;name&gt;" / "layer:&lt;name&gt;" cannot collide with
hex output).  The model-level ids are therefore embedded as an inductive
type whose constructors mirror the distinct id-forming call sites. -/

inductive Id where
  /-- builder: f-string id "system:{rules.system_name}". -/
  | system (name : String)
  /-- builder: f-string id "layer:{layer}". -/
  | layer (name : String)
  /-- builder: stable_id("group", layer, group_path). -/
  | group (layerName : String) (path : String)
  /-- builder: stable_id("file", fact.path). -/
  | file (path : String)
  /-- builder: stable_id("edge", src, dst, kind, label). -/
  | edge (src dst : Id) (kind label : String)
  /-- an id originating outside the builder (hand-assembled models). -/
  | raw (s : String)
  deriving DecidableEq, Repr

/-- schemas.ModuleNode. -/
structure ModuleNode where
  id : Id
  name : String
  layer : String
  level : Nat
  path : String
  parent_id : Option Id
  evidence_ids : List String
  deriving DecidableEq, Repr

/-- schemas.PortNode (module_id points at a file-level ModuleNode). -/
structure PortNode where
  id : String
  module_id : Id
  name : String
  protocol : String
  direction : String
  details : String
  evidence_ids : List String
  deriving DecidableEq, Repr

/-- schemas.ArchitectureEdge. -/
structure ArchitectureEdge where
  id : Id
  src_id : Id
  dst_id : Id
  kind : String
  label : String
  evidence_ids : List String
  deriving DecidableEq, Repr

/-- schemas.Evidence. -/
structure Evidence where
  id : String
  file_path : String
  line_start : Nat
  line_end : Nat
  parser : String
  deriving DecidableEq, Repr

/-! ## Cycle detection (archsync/diff/rules_engine.py) -/

/-- rules_engine._module_lookup: dict comprehension module_id -&gt; (name,
layer, level); a later module with the same id overwrites an earlier one. -/
def moduleLookup (modules : List ModuleNode) (i : Id) : Option (String × String × Nat) :=
  modules.foldl (fun acc m => if m.id = i then some (m.name, m.layer, m.level) else acc) none

/-- A model as consumed by detect_cycles (schemas.ArchitectureModel without
the metadata payload, which detect_cycles never reads). -/
structure ModelGraph where
  modules : List ModuleNode
  edges : List ArchitectureEdge
  deriving DecidableEq, Repr

/-- detect_cycles' edge filter: keep dependency/interface edges whose two
endpoints resolve in the lookup with level exactly 2. -/
def groupEdgeFilter (lookup : Id → Option (String × String × Nat))
    (e : ArchitectureEdge) : Option (Id × Id) :=
  if e.kind = "dependency" ∨ e.kind = "interface" then
    match lookup e.src_id, lookup e.dst_id with
    | some s, some d => if s.2.2 = 2 ∧ d.2.2 = 2 then some (e.src_id, e.dst_id) else none
    | _, _ => none
  else none

/-- defaultdict(list) append: graph[src].append(dst), creating the key at the
end of the insertion order on first use. -/
def adjAppend (g : List (Id × List Id)) (src dst : Id) : List (Id × List Id) :=
  if g.any (fun p => decide (p.1 = src)) then
    g.map (fun p => if p.1 = src then (p.1, p.2 ++ [dst]) else p)
  else g ++ [(src, [dst])]

/-- graph.get(node, []). -/
def adjGet (g : List (Id × List Id)) (node : Id) : List Id :=
  ((g.find? (fun p => decide (p.1 = node))).map (fun p => p.2)).getD []

/-- detect_cycles' graph: one pass over model.edges, skipping filtered-out
edges and appending the rest into the adjacency map. -/
def buildCycleGraph (model : ModelGraph) : List (Id × List Id) :=
  (model.edges.filterMap (groupEdgeFilter (moduleLookup model.modules))).foldl
    (fun g p => adjAppend g p.1 p.2) []

/-- The mutable state of detect_cycles' nested dfs (visited / stack are
Python sets queried only for membership; path is the explicit path stack). -/
structure DfsSt where
  visited : List Id
  stack : List Id
  path : List Id
  cycles : List (List String)
  deriving DecidableEq, Repr

/-- The `elif nxt in stack` branch of dfs: slice the path from the first
occurrence of nxt (index 0 when absent — the source's ValueError fallback),
close the cycle with nxt, map ids to display names, and record the name
sequence unless it is empty or already recorded. -/
def recordCycle (lookup : Id → Option (String × String × Nat)) (nxt : Id)
    (st : DfsSt) : DfsSt :=
  let index := if nxt ∈ st.path then st.path.findIdx (fun x => decide (x = nxt)) else 0
  let cycle := st.path.drop index ++ [nxt]
  let names := cycle.filterMap (fun item => (lookup item).map (fun t => t.1))
  if names ≠ [] ∧ names ∉ st.cycles then { st with cycles := st.cycles ++ [names] } else st

/-- detect_cycles' recursive dfs, made total by a fuel argument that strictly
exceeds the recursion depth ever reached: each nested call is made on a node
not yet visited and immediately marks it visited, so the depth is bounded by
the number of distinct node ids and the fuel chosen in detectCycles is never
exhausted. -/
def dfsVisit (graph : List (Id × List Id)) (lookup : Id → Option (String × String × Nat)) :
    Nat → Id → DfsSt → DfsSt
  | 0, _, st => st
  | fuel + 1, node, st =>
    let st1 : DfsSt := { st with
      visited := st.visited ++ [node]
      stack := st.stack ++ [node]
      path := st.path ++ [node] }
    let st2 := (adjGet graph node).foldl
      (fun acc nxt =>
        if nxt ∉ acc.visited then dfsVisit graph lookup fuel nxt acc
        else if nxt ∈ acc.stack then recordCycle lookup nxt acc
        else acc)
      st1
    { st2 with stack := st2.stack.erase node, path := st2.path.dropLast }

/-- Fuel bound: more than the number of node ids mentioned in the graph. -/
def dfsFuel (graph : List (Id × List Id)) : Nat :=
  graph.length + (graph.foldl (fun n p => n + p.2.length) 0) + 1

/-- rules_engine.detect_cycles: iterative-entry depth-first search over the
group-level dependency/interface graph, collecting deduplicated name cycles. -/
def detectCycles (model : ModelGraph) : List (List String) :=
  let lookup := moduleLookup model.modules
  let graph := buildCycleGraph model
  let final := (graph.map (fun p => p.1)).foldl
    (fun st node => if node ∉ st.visited then dfsVisit graph lookup (dfsFuel graph) node st else st)
    ⟨[], [], [], []⟩
  final.cycles

lemma adjGet_pair (A B : Id) (xs ys : List Id) (hAB : A ≠ B) :
    adjGet [(A, xs), (B, ys)] A = xs ∧ adjGet [(A, xs), (B, ys)] B = ys := by
  constructor <;> simp [adjGet, List.find?, hAB, Ne.symm hAB]

/-- Symbolic run of the dfs on the two-node graph A -&gt; B -&gt; A starting from
A with any sufficient fuel. -/
lemma dfsVisit_mutual (graph : List (Id × List Id))
    (lookup : Id → Option (String × String × Nat)) (A B : Id) (nA nB lA lB : String)
    (n : Nat) (hAB : A ≠ B)
    (hga : adjGet graph A = [B]) (hgb : adjGet graph B = [A])
    (hA : lookup A = some (nA, lA, 2)) (hB : lookup B = some (nB, lB, 2)) :
    dfsVisit graph lookup (n + 2) A ⟨[], [], [], []⟩ =
      ⟨[A, B], [], [], [[nA, nB, nA]]⟩ := by
  have hBA : B ≠ A := Ne.symm hAB
  simp [dfsVisit, hga, hgb, hA, hB, hAB, hBA, recordCycle, List.findIdx, List.findIdx.go,
    List.erase_cons]

/-- C4 (amended): a model whose group-level dependency/interface edges are
exactly the mutual pair A -&gt; B, B -&gt; A between two level-2 nodes yields
exactly one cycle, whose recorded name sequence is the two display names with
the starting name repeated to close the cycle (three entries); a model with
no group-level dependency/interface edges (for example, file-level
dependency_file cross-references only) yields zero cycles. -/
theorem detect_cycles_mutual_pair_c4 :
    (∀ (model : ModelGraph) (A B : Id) (nA nB lA lB : String),
      A ≠ B →
      moduleLookup model.modules A = some (nA, lA, 2) →
      moduleLookup model.modules B = some (nB, lB, 2) →
      model.edges.filterMap (groupEdgeFilter (moduleLookup model.modules)) = [(A, B), (B, A)] →
      detectCycles model = [[nA, nB, nA]]) ∧
    (∀ model : ModelGraph,
      model.edges.filterMap (groupEdgeFilter (moduleLookup model.modules)) = [] →
      detectCycles model = []) := by
  constructor
  · intro model A B nA nB lA lB hAB hA hB hflt
    have hBA : B ≠ A := Ne.symm hAB
    have hgraph : buildCycleGraph model = [(A, [B]), (B, [A])] := by
      simp [buildCycleGraph, hflt, adjAppend, hAB, hBA]
    have hfuel : dfsFuel [(A, [B]), (B, [A])] = 5 := by simp [dfsFuel]
    have hrun : dfsVisit [(A, [B]), (B, [A])] (moduleLookup model.modules) 5 A
        ⟨[], [], [], []⟩ = ⟨[A, B], [], [], [[nA, nB, nA]]⟩ :=
      dfsVisit_mutual [(A, [B]), (B, [A])] (moduleLookup model.modules) A B nA nB lA lB 3 hAB
        (adjGet_pair A B [B] [A] hAB).1 (adjGet_pair A B [B] [A] hAB).2 hA hB
    simp only [detectCycles, hgraph, List.map, List.foldl]
    simp [hfuel, hrun, hAB, hBA]
  · intro model hflt
    have hgraph : buildCycleGraph model = [] := by simp [buildCycleGraph, hflt]
    simp [detectCycles, hgraph]

/-- The test-suite style concrete model: two level-2 nodes referencing each
other through dependency edges. -/
def cexCycleModel : ModelGraph :=
  { modules := [
      ⟨Id.system "x", "x", "System", 0, "/", none, []⟩,
      ⟨Id.layer "Frontend", "Frontend", "Frontend", 1, "Frontend", some (Id.system "x"), []⟩,
      ⟨Id.layer "Backend", "Backend", "Backend", 1, "Backend", some (Id.system "x"), []⟩,
      ⟨Id.raw "m1", "frontend/src", "Frontend", 2, "frontend/src", some (Id.layer "Frontend"), []⟩,
      ⟨Id.raw "m2", "backend", "Backend", 2, "backend", some (Id.layer "Backend"), []⟩],
    edges := [
      ⟨Id.raw "e1", Id.raw "m2", Id.raw "m1", "dependency", "bad", []⟩,
      ⟨Id.raw "e2", Id.raw "m1", Id.raw "m2", "dependency", "ok", []⟩] }

/-- A model whose only cross-reference is a file-level dependency_file edge
between the two level-2 nodes. -/
def fileOnlyModel : ModelGraph :=
  { modules := cexCycleModel.modules,
    edges := [⟨Id.raw "e1", Id.raw "m2", Id.raw "m1", "dependency_file", "bad", []⟩] }

/-- C4 counterexample: on a concrete mutual group-level dependency the
detector returns one cycle of THREE name entries (the starting node repeated
at the close), not a 2-element cycle as claimed. -/
theorem detect_cycles_c4_counterexample :
    detectCycles cexCycleModel = [["backend", "frontend/src", "backend"]] ∧
    ¬ ∃ c, detectCycles cexCycleModel = [c] ∧ c.length = 2 := by
  constructor
  · decide
  · rintro ⟨c, hc, hlen⟩
    rw [show detectCycles cexCycleModel = [["backend", "frontend/src", "backend"]] from by decide]
      at hc
    cases hc
    simp at hlen

/-- Witness for C4 at the concrete models. -/
theorem detect_cycles_c4_witness :
    detectCycles cexCycleModel = [["backend", "frontend/src", "backend"]] ∧
    detectCycles fileOnlyModel = [] :=
  ⟨detect_cycles_mutual_pair_c4.1 cexCycleModel (Id.raw "m2") (Id.raw "m1")
      "backend" "frontend/src" "Backend" "Frontend" (by decide) (by decide) (by decide)
      (by decide),
    detect_cycles_mutual_pair_c4.2 fileOnlyModel (by decide)⟩

/-! ## Interface route matching (archsync/model/builder.py) -/

/-- builder._route_key: when the port name carries a method prefix
("GET /path"), the text after the first space, stripped and lowercased;
otherwise the whole name stripped and lowercased.  The query string is NOT
removed here. -/
def routeKey (name : String) : String :=
  if pyContainsChar name ' ' then pyLower (pyStrip (afterFirstSpace name))
  else pyLower (pyStrip name)

/-- builder._is_route_match: equality, prefix containment in either
direction, or equality after dropping a "?query" suffix from both sides. -/
def isRouteMatch (source target : String) : Bool :=
  if source = target then true
  else if pyStartswith source target ∨ pyStartswith target source then true
  else decide (beforeQuery source = beforeQuery target)

/-- Modelled from the spec (claim C3 wording): the route key keeps the
method and path and strips any query string, case folded. -/
def claimRouteKeyC3 (name : String) : String :=
  pyLower (beforeQuery name)

/-- Modelled from the spec (claim C3 wording): a match holds exactly when
the two keys are equal or one is a prefix of the other. -/
def claimRouteMatchC3 (source target : String) : Prop :=
  source = target ∨ pyStartswith source target = true ∨ pyStartswith target source = true

/-- C3 counterexample: the code's route key keeps the query string and drops
the method ("GET /a?x" normalizes to "/a?x", not "get /a"), and
_is_route_match accepts key pairs that are neither equal nor prefix-related
("/a?x" against "/a?y"). -/
theorem route_match_c3_counterexample :
    routeKey "GET /a?x" = "/a?x" ∧
    claimRouteKeyC3 "GET /a?x" = "get /a" ∧
    routeKey "GET /a?x" ≠ claimRouteKeyC3 "GET /a?x" ∧
    isRouteMatch "/a?x" "/a?y" = true ∧
    ¬ claimRouteMatchC3 "/a?x" "/a?y" := by
  refine ⟨by decide, by decide, by decide, by decide, ?_⟩
  rintro (h | h | h) <;> revert h <;> decide

/-! ## Facts and configuration (archsync/schemas.py, archsync/config.py)

Fact-level ids stay strings (stable_id output); glob matching
(utils.path_matches over fnmatch with brace expansion) and regex search are
pure functions of their inputs and are threaded as the rules' own decision
functions. -/

/-- schemas.ModuleFact. -/
structure ModuleFact where
  id : String
  name : String
  path : String
  language : String
  deriving DecidableEq, Repr

/-- schemas.SymbolFact. -/
structure SymbolFact where
  id : String
  module_id : String
  name : String
  kind : String
  visibility : String
  line : Nat
  deriving DecidableEq, Repr

/-- schemas.InterfaceFact. -/
structure InterfaceFact where
  id : String
  module_id : String
  name : String
  protocol : String
  direction : String
  details : String
  evidence_id : String
  deriving DecidableEq, Repr

/-- schemas.EdgeFact. -/
structure EdgeFact where
  id : String
  src_module_id : String
  dst_module_id : String
  kind : String
  label : String
  evidence_id : String
  interface_id : Option String
  deriving DecidableEq, Repr

/-- engine.extract_facts coverage metadata (the float ratio is modelled as
the exact rational the deterministic IEEE division is a function of). -/
structure Coverage where
  analyzed_files : Nat
  eligible_files : Nat
  ratio : Rat
  missing_files_sample : List String
  deriving DecidableEq, Repr

/-- engine.extract_facts language-breakdown metadata. -/
structure LanguageBreakdown where
  python : Nat
  javascript : Nat
  cpp : Nat
  unknown : Nat
  deriving DecidableEq, Repr

/-- The two metadata keys extract_facts records. -/
structure SnapshotMetadata where
  coverage : Coverage
  language_breakdown : LanguageBreakdown
  deriving DecidableEq, Repr

/-- schemas.FactsSnapshot. -/
structure FactsSnapshot where
  snapshot_id : String
  commit_id : String
  repo_root : String
  created_at : String
  modules : List ModuleFact
  symbols : List SymbolFact
  interfaces : List InterfaceFact
  edges : List EdgeFact
  evidences : List Evidence
  metadata : SnapshotMetadata
  deriving DecidableEq, Repr

/-- config.LayerRule; utils.path_matches(path, rule.match) is carried as the
rule's own glob decision function. -/
structure LayerRule where
  name : String
  matchTest : String → Bool

/-- config.InterfaceRule; re.search(item.pattern, line) is carried as the
rule's decision function next to the literal pattern text used in details. -/
structure InterfaceRule where
  patternStr : String
  patternTest : String → Bool
  protocol : String
  direction : String

/-- config.RulesConfig (the fields the embedded pipeline reads; the
constraints block and the LLM endpoint descriptor stay with their external
consumers). -/
structure RulesConfig where
  system_name : String
  module_depth : Int
  includeMatch : String → Bool
  excludeMatch : String → Bool
  layers : List LayerRule
  default_layer : String
  interfaces : List InterfaceRule

/-! ## Path helpers shared by the builder and the engine -/

/-- pathlib.PurePosixPath(p).parts: components without empty or "."
segments, a leading "/" kept as the root component. -/
def posixParts (p : String) : List String :=
  let comps := (pySplitChar p '/').filter (fun s => decide (s ≠ "" ∧ s ≠ "."))
  if pyStartswith p "/" then "/" :: comps else comps

/-- pathlib.PurePosixPath(p).name: the final component (empty for the
root). -/
def posixName (p : String) : String :=
  match (posixParts p).getLast? with
  | some "/" => ""
  | some x => x
  | none => ""

/-! ## Model builder (archsync/model/builder.py) -/

/-- builder._pick_layer: first matching ordered layer rule, else the default
layer. -/
def pickLayer (path : String) (rules : RulesConfig) : String :=
  (((rules.layers.find? (fun rule => rule.matchTest path)).map (fun r => r.name))).getD
    rules.default_layer

/-- builder._group_paths: the first grouping level merges module_depth
leading directories, then every deeper directory level becomes its own
group, excluding the file itself. -/
def groupPaths (path : String) (depth : Int) : List String :=
  let parts := posixParts path
  if parts.length ≤ 1 then []
  else
    let directories := parts.dropLast
    if directories.isEmpty then []
    else
      let rootDepth := (min (max 1 depth) (directories.length : Int)).toNat
      pyJoin "/" (directories.take rootDepth) ::
        (List.range' (rootDepth + 1) (directories.length - rootDepth)).map
          (fun idx => pyJoin "/" (directories.take idx))

/-- Python dict read d.get(k). -/
def dictGet {α β : Type} [DecidableEq α] (d : List (α × β)) (k : α) : Option β :=
  (d.find? (fun p => decide (p.1 = k))).map (fun p => p.2)

/-- Python dict write d[k] = v: update in place, or append a new key at the
end of the insertion order. -/
def dictSet {α β : Type} [DecidableEq α] (d : List (α × β)) (k : α) (v : β) : List (α × β) :=
  if d.any (fun p => decide (p.1 = k)) then
    d.map (fun p => if p.1 = k then (k, v) else p)
  else d ++ [(k, v)]

/-- defaultdict(list) append d[k].append(v). -/
def bagAppend {α β : Type} [DecidableEq α] (d : List (α × List β)) (k : α) (v : β) :
    List (α × List β) :=
  if d.any (fun p => decide (p.1 = k)) then
    d.map (fun p => if p.1 = k then (p.1, p.2 ++ [v]) else p)
  else d ++ [(k, [v])]

/-- The mutable state of build_architecture_model's module loop. -/
structure BuildSt where
  fileNodes : List ModuleNode
  layerNodes : List (String × ModuleNode)
  groupNodes : List (Id × ModuleNode)
  factToFile : List (String × Id)
  factToGroup : List (String × Id)

/-- The running (parent_id, parent_level, deepest_group_id) triple of the
group-chain loop together with the group dict it extends. -/
structure GroupAcc where
  parentId : Id
  parentLevel : Nat
  deepest : Id
  groupNodes : List (Id × ModuleNode)

/-- One iteration of the group-chain loop: create the group node on first
encounter (level = previous parent level + 1, parent = previous chain
element), then continue from the STORED node's level. -/
def groupStep (layer : String) (acc : GroupAcc) (groupPath : String) : GroupAcc :=
  let gid := Id.group layer groupPath
  let gmap :=
    if (dictGet acc.groupNodes gid).isNone then
      acc.groupNodes ++ [(gid,
        { id := gid
          name := if posixName groupPath = "" then groupPath else posixName groupPath
          layer := layer
          level := acc.parentLevel + 1
          path := groupPath
          parent_id := some acc.parentId
          evidence_ids := [] })]
    else acc.groupNodes
  let glvl := (((dictGet gmap gid).map (fun n => n.level))).getD 0
  { parentId := gid, parentLevel := glvl, deepest := gid, groupNodes := gmap }

/-- The `if layer not in layer_nodes` block of the module loop: create the
level-1 layer node under the system root on first encounter. -/
def ensureLayer (rules : RulesConfig) (layerNodes : List (String × ModuleNode))
    (layer : String) : List (String × ModuleNode) :=
  if (dictGet layerNodes layer).isNone then
    layerNodes ++ [(layer,
      { id := Id.layer layer
        name := layer
        layer := layer
        level := 1
        path := layer
        parent_id := some (Id.system rules.system_name)
        evidence_ids := [] })]
  else layerNodes

/-- One iteration of the module loop of build_architecture_model: ensure the
layer node, walk the group chain, then append the file-level leaf node and
record the fact's file node and deepest-group ancestor. -/
def processFact (rules : RulesConfig) (st : BuildSt) (fact : ModuleFact) : BuildSt :=
  let layer := pickLayer fact.path rules
  let layerNodes := ensureLayer rules st.layerNodes layer
  let layerNodeId := (((dictGet layerNodes layer).map (fun n => n.id))).getD (Id.layer layer)
  let acc0 : GroupAcc :=
    { parentId := layerNodeId, parentLevel := 1, deepest := layerNodeId,
      groupNodes := st.groupNodes }
  let acc := (groupPaths fact.path rules.module_depth).foldl (groupStep layer) acc0
  let fileNode : ModuleNode :=
    { id := Id.file fact.path
      name := if posixName fact.path = "" then fact.path else posixName fact.path
      layer := layer
      level := acc.parentLevel + 1
      path := fact.path
      parent_id := some acc.parentId
      evidence_ids := [] }
  { fileNodes := st.fileNodes ++ [fileNode]
    layerNodes := layerNodes
    groupNodes := acc.groupNodes
    factToFile := dictSet st.factToFile fact.id fileNode.id
    factToGroup := dictSet st.factToGroup fact.id acc.deepest }

/-- builder: re-parent each InterfaceFact whose module resolves onto its
file-level node; facts referencing unknown modules are silently dropped. -/
def buildPorts (interfaces : List InterfaceFact) (factToFile : List (String × Id)) :
    List PortNode :=
  interfaces.filterMap (fun item =>
    (dictGet factToFile item.module_id).map (fun fid =>
      { id := item.id
        module_id := fid
        name := item.name
        protocol := item.protocol
        direction := item.direction
        details := item.details
        evidence_ids := [item.evidence_id] }))

/-- The edge list plus the (src, dst, kind, label) dedup set shared by the
roll-up and interface-matching loops. -/
structure EdgeAcc where
  edges : List ArchitectureEdge
  seen : List (Id × Id × String × String)

/-- One iteration of the EdgeFact roll-up loop: a file-level
dependency_file edge when both endpoints resolve to distinct file nodes, a
group-level dependency edge when both deepest-group ancestors differ, both
deduplicated by (src, dst, kind, label). -/
def edgeStep (factToFile factToGroup : List (String × Id)) (acc : EdgeAcc)
    (item : EdgeFact) : EdgeAcc :=
  let acc1 :=
    match dictGet factToFile item.src_module_id, dictGet factToFile item.dst_module_id with
    | some srcFile, some dstFile =>
      if srcFile ≠ dstFile then
        let key := (srcFile, dstFile, "dependency_file", item.label)
        if key ∉ acc.seen then
          { edges := acc.edges ++ [
              { id := Id.edge srcFile dstFile "dependency_file" item.label
                src_id := srcFile
                dst_id := dstFile
                kind := "dependency_file"
                label := item.label
                evidence_ids := [item.evidence_id] }]
            seen := acc.seen ++ [key] }
        else acc
      else acc
    | _, _ => acc
  match dictGet factToGroup item.src_module_id, dictGet factToGroup item.dst_module_id with
  | some srcGroup, some dstGroup =>
    if srcGroup ≠ dstGroup then
      let key := (srcGroup, dstGroup, "dependency", item.label)
      if key ∉ acc1.seen then
        { edges := acc1.edges ++ [
            { id := Id.edge srcGroup dstGroup "dependency" item.label
              src_id := srcGroup
              dst_id := dstGroup
              kind := "dependency"
              label := item.label
              evidence_ids := [item.evidence_id] }]
          seen := acc1.seen ++ [key] }
      else acc1
    else acc1
  | _, _ => acc1

/-- builder: group ports into in/out defaultdicts keyed by raw protocol,
classifying by the lowercased direction. -/
def portsByProtocol (ports : List PortNode) :
    (List (String × List PortNode)) × (List (String × List PortNode)) :=
  ports.foldl (fun acc port =>
    if pyLower port.direction = "in" then (bagAppend acc.1 port.protocol port, acc.2)
    else if pyLower port.direction = "out" then (acc.1, bagAppend acc.2 port.protocol port)
    else acc) ([], [])

/-- builder's interface-matching loops: every outbound port against every
inbound port of the same protocol on a different file node, matched through
_route_key / _is_route_match, producing deduplicated interface edges. -/
def interfacePass (ports : List PortNode) (acc0 : EdgeAcc) : EdgeAcc :=
  let inDict := (portsByProtocol ports).1
  let outDict := (portsByProtocol ports).2
  outDict.foldl (fun accOuter entry =>
    let protocol := entry.1
    let inPorts := (dictGet inDict protocol).getD []
    entry.2.foldl (fun accMid outPort =>
      let srcKey := routeKey outPort.name
      inPorts.foldl (fun acc inPort =>
        if outPort.module_id = inPort.module_id then acc
        else if ¬ (isRouteMatch srcKey (routeKey inPort.name) = true) then acc
        else
          let label := protocol ++ " " ++ srcKey
          let key := (outPort.module_id, inPort.module_id, "interface", label)
          if key ∈ acc.seen then acc
          else
            { edges := acc.edges ++ [
                { id := Id.edge outPort.module_id inPort.module_id "interface" label
                  src_id := outPort.module_id
                  dst_id := inPort.module_id
                  kind := "interface"
                  label := label
                  evidence_ids := outPort.evidence_ids ++ inPort.evidence_ids }]
              seen := acc.seen ++ [key] }) accMid) accOuter) acc0

/-- The CJK Unified Ideographs test of builder.CHINESE_RE. -/
def isChineseChar (c : Char) : Bool :=
  decide (0x4e00 ≤ c.toNat ∧ c.toNat ≤ 0x9fff)

/-- builder._contains_chinese. -/
def containsChinese (text : String) : Bool :=
  text.toList.any isChineseChar

/-- builder._default_summary_for_module. -/
def defaultSummaryForModule (node : ModuleNode)
    (childCount portCount incomingCount outgoingCount : Nat) : String :=
  if node.level = 0 then "系统顶层视图，汇总各层模块与主要连接关系。"
  else if childCount > 0 then
    node.layer ++ "层容器模块，包含" ++ toString childCount ++ "个子模块。"
  else if portCount > 0 then
    node.layer ++ "层功能模块，提供" ++ toString portCount ++ "个接口端口。"
  else if incomingCount > 0 ∨ outgoingCount > 0 then
    node.layer ++ "层实现模块，入链路" ++ toString incomingCount ++ "条、出链路" ++
      toString outgoingCount ++ "条。"
  else if node.path ≠ "" ∧ pyContainsChar node.path '/' = true ∧
      pyContainsChar (posixName node.path) '.' = true then
    node.layer ++ "层实现文件，承载具体业务逻辑。"
  else node.layer ++ "层基础模块，负责结构组织与协同。"

/-- builder._build_default_summaries: the defaultdict counters tally, per
node id, children / attached ports / incoming and outgoing edges. -/
def buildDefaultSummaries (modules : List ModuleNode) (ports : List PortNode)
    (edges : List ArchitectureEdge) : List (Id × String) :=
  modules.foldl (fun d node =>
    dictSet d node.id (defaultSummaryForModule node
      ((modules.filter (fun m => decide (m.parent_id = some node.id))).length)
      ((ports.filter (fun p => decide (p.module_id = node.id))).length)
      ((edges.filter (fun e => decide (e.dst_id = node.id))).length)
      ((edges.filter (fun e => decide (e.src_id = node.id))).length))) []

/-- llm.provider.ModuleDraft. -/
structure ModuleDraft where
  id : Id
  name : String
  layer : String
  path : String
  deriving DecidableEq, Repr

/-- llm.provider.EnrichmentResult: the id-keyed name and summary mappings an
external provider returns. -/
structure EnrichmentResult where
  names : List (Id × String)
  summaries : List (Id × String)
  deriving DecidableEq, Repr

/-- One iteration of builder's summary-merge loop: skip empty-after-strip
summaries and summaries with no Chinese character; otherwise overwrite the
merged summary and flip the provenance to "llm". -/
def mergeSummariesStep (acc : (List (Id × String)) × (List (Id × String)))
    (p : Id × String) : (List (Id × String)) × (List (Id × String)) :=
  let clean := pyStrip p.2
  if clean = "" then acc
  else if ¬ (containsChinese clean = true) then acc
  else (dictSet acc.1 p.1 clean, dictSet acc.2 p.1 "llm")

/-- builder's summary-merge loop: an enrichment summary replaces the default
only when non-empty after stripping and containing a Chinese character, in
which case the provenance flips from "fallback" to "llm". -/
def mergeSummaries (defaults : List (Id × String)) (enrSummaries : List (Id × String)) :
    (List (Id × String)) × (List (Id × String)) :=
  enrSummaries.foldl mergeSummariesStep
    (defaults, defaults.map (fun p => (p.1, "fallback")))

/-- builder's rename loop: every node whose id appears in the returned name
mapping is rebuilt with the returned name (whatever it is); all structural
fields are copied unchanged. -/
def builderRename (modules : List ModuleNode) (names : List (Id × String)) :
    List ModuleNode :=
  modules.map (fun node =>
    match dictGet names node.id with
    | some newName =>
      { id := node.id
        name := newName
        layer := node.layer
        level := node.level
        path := node.path
        parent_id := node.parent_id
        evidence_ids := node.evidence_ids }
    | none => node)

/-- The metadata dict build_architecture_model assembles. -/
structure ModelMetadata where
  snapshot_id : String
  module_count : Nat
  port_count : Nat
  edge_count : Nat
  llm_summaries : List (Id × String)
  llm_summary_source : List (Id × String)
  coverage : Coverage
  language_breakdown : LanguageBreakdown
  deriving DecidableEq, Repr

/-- schemas.ArchitectureModel. -/
structure ArchitectureModel where
  system_name : String
  commit_id : String
  generated_at : String
  modules : List ModuleNode
  ports : List PortNode
  edges : List ArchitectureEdge
  evidences : List Evidence
  metadata : ModelMetadata
  deriving DecidableEq, Repr

/-- builder.build_architecture_model; the external enrichment provider
(build_provider(rules.llm).enrich) is an injected function of the drafts,
and the wall-clock generated_at stamp is an explicit argument. -/
def buildArchitectureModel (provider : List ModuleDraft → EnrichmentResult)
    (snapshot : FactsSnapshot) (rules : RulesConfig) (generatedAt : String) :
    ArchitectureModel :=
  let systemId := Id.system rules.system_name
  let systemNode : ModuleNode :=
    { id := systemId, name := rules.system_name, layer := "System", level := 0,
      path := "/", parent_id := none, evidence_ids := [] }
  let st := snapshot.modules.foldl (processFact rules)
    { fileNodes := [], layerNodes := [], groupNodes := [], factToFile := [], factToGroup := [] }
  let modules := systemNode :: st.fileNodes ++ (st.layerNodes.map (fun p => p.2)) ++
    (st.groupNodes.map (fun p => p.2))
  let ports := buildPorts snapshot.interfaces st.factToFile
  let rollup := snapshot.edges.foldl (edgeStep st.factToFile st.factToGroup)
    { edges := [], seen := [] }
  let withInterfaces := interfacePass ports rollup
  let edges := withInterfaces.edges
  let defaults := buildDefaultSummaries modules ports edges
  let enrichables := (modules.filter (fun node => decide (1 ≤ node.level))).map
    (fun node => ModuleDraft.mk node.id node.name node.layer node.path)
  let enrichment := provider enrichables
  let msrc := mergeSummaries defaults enrichment.summaries
  let renamed := builderRename modules enrichment.names
  { system_name := rules.system_name
    commit_id := snapshot.commit_id
    generated_at := generatedAt
    modules := renamed
    ports := ports
    edges := edges
    evidences := snapshot.evidences
    metadata :=
      { snapshot_id := snapshot.snapshot_id
        module_count := modules.length
        port_count := ports.length
        edge_count := edges.length
        llm_summaries := msrc.1
        llm_summary_source := msrc.2
        coverage := snapshot.metadata.coverage
        language_breakdown := snapshot.metadata.language_breakdown } }

/-! ## Dictionary lemmas -/

section DictLemmas

variable {α β : Type} [DecidableEq α]

lemma dictGet_key_of_eq_some {d : List (α × β)} {k : α} {v : β}
    (h : dictGet d k = some v) : (k, v) ∈ d := by
  simp only [dictGet, Option.map_eq_some'] at h
  obtain ⟨p, hp, hv⟩ := h
  have hk := List.find?_some hp
  have hmem := List.mem_of_find?_eq_some hp
  simp only [decide_eq_true_eq] at hk
  have : p = (k, v) := by
    cases p
    simp_all
  rwa [this] at hmem

lemma dictGet_eq_none_iff {d : List (α × β)} {k : α} :
    dictGet d k = none ↔ ∀ p ∈ d, p.1 ≠ k := by
  simp [dictGet, List.find?_eq_none]

lemma dictGet_append {d e : List (α × β)} {k : α} :
    dictGet (d ++ e) k = (dictGet d k).or (dictGet e k) := by
  simp only [dictGet, List.find?_append]
  cases List.find? (fun p => decide (p.1 = k)) d <;> simp

lemma dictGet_append_of_isSome {d e : List (α × β)} {k : α}
    (h : (dictGet d k).isSome) : dictGet (d ++ e) k = dictGet d k := by
  rw [dictGet_append]
  cases hd : dictGet d k
  · rw [hd] at h; simp at h
  · simp

lemma dictGet_append_singleton_of_none {d : List (α × β)} {k : α} {v : β}
    (h : dictGet d k = none) : dictGet (d ++ [(k, v)]) k = some v := by
  rw [dictGet_append, h]
  simp [dictGet]

lemma dictGet_nil {k : α} : dictGet ([] : List (α × β)) k = none := rfl

lemma dictGet_cons_self {q : α × β} {d : List (α × β)} {k : α} (h : q.1 = k) :
    dictGet (q :: d) k = some q.2 := by
  simp [dictGet, List.find?_cons, h]

lemma dictGet_cons_ne {q : α × β} {d : List (α × β)} {k : α} (h : q.1 ≠ k) :
    dictGet (q :: d) k = dictGet d k := by
  simp [dictGet, List.find?_cons, h]

lemma dictGet_append_singleton_ne {d : List (α × β)} {k k' : α} {v : β}
    (h : k' ≠ k) : dictGet (d ++ [(k, v)]) k' = dictGet d k' := by
  rw [dictGet_append]
  cases hd : dictGet d k'
  · rw [Option.none_or, dictGet_cons_ne (fun hc : (k, v).1 = k' => h hc.symm), dictGet_nil]
  · simp

lemma dictGet_isSome_iff {d : List (α × β)} {k : α} :
    (dictGet d k).isSome ↔ ∃ p ∈ d, p.1 = k := by
  cases hd : dictGet d k with
  | none =>
    rw [dictGet_eq_none_iff] at hd
    simp only [Option.isSome_none, Bool.false_eq_true, false_iff]
    rintro ⟨p, hp, hk⟩
    exact hd p hp hk
  | some v =>
    simp only [Option.isSome_some, true_iff]
    exact ⟨(k, v), dictGet_key_of_eq_some hd, rfl⟩

lemma dictSet_keys {d : List (α × β)} {k : α} {v : β} :
    ((dictSet d k v).map Prod.fst = d.map Prod.fst) ∨
    ((dictSet d k v).map Prod.fst = d.map Prod.fst ++ [k]) := by
  unfold dictSet
  split_ifs with h
  · left
    rw [List.map_map]
    refine List.map_congr_left ?_
    intro p _
    by_cases hp : p.1 = k <;> simp [hp]
  · right; simp

lemma dictGet_replace_self {d : List (α × β)} {k : α} {v : β}
    (h : ∃ p ∈ d, p.1 = k) :
    dictGet (d.map (fun p => if p.1 = k then (k, v) else p)) k = some v := by
  induction d with
  | nil => simp at h
  | cons q rest ih =>
    by_cases hq : q.1 = k
    · rw [List.map_cons, if_pos hq, dictGet_cons_self rfl]
    · have h' : ∃ p ∈ rest, p.1 = k := by
        obtain ⟨p, hp, hk⟩ := h
        rcases List.mem_cons.mp hp with rfl | hr
        · exact absurd hk hq
        · exact ⟨p, hr, hk⟩
      rw [List.map_cons, if_neg hq, dictGet_cons_ne hq, ih h']

lemma dictGet_replace_ne {d : List (α × β)} {k k' : α} {v : β} (h : k' ≠ k) :
    dictGet (d.map (fun p => if p.1 = k then (k, v) else p)) k' = dictGet d k' := by
  induction d with
  | nil => rfl
  | cons q rest ih =>
    by_cases hq : q.1 = k
    · rw [List.map_cons, if_pos hq,
        dictGet_cons_ne (show (k, v).1 ≠ k' from fun hc => h hc.symm),
        dictGet_cons_ne (show q.1 ≠ k' from hq ▸ fun hc => h hc.symm), ih]
    · rw [List.map_cons, if_neg hq]
      by_cases hq' : q.1 = k'
      · rw [dictGet_cons_self hq', dictGet_cons_self hq']
      · rw [dictGet_cons_ne hq', dictGet_cons_ne hq', ih]

lemma dictGet_dictSet_self {d : List (α × β)} {k : α} {v : β} :
    dictGet (dictSet d k v) k = some v := by
  unfold dictSet
  split_ifs with h
  · simp only [List.any_eq_true, decide_eq_true_eq] at h
    exact dictGet_replace_self h
  · exact dictGet_append_singleton_of_none (by
      rw [dictGet_eq_none_iff]
      intro p hp hk
      exact h (List.any_eq_true.mpr ⟨p, hp, by simp [hk]⟩))

lemma dictGet_dictSet_ne {d : List (α × β)} {k k' : α} {v : β} (h : k' ≠ k) :
    dictGet (dictSet d k v) k' = dictGet d k' := by
  unfold dictSet
  split_ifs with hmem
  · exact dictGet_replace_ne h
  · exact dictGet_append_singleton_ne h

end DictLemmas

/-! ## Builder tree invariant (claim C2)

The loop invariant of build_architecture_model's module pass: layer nodes sit
at level 1 under the system root, every group node is stored under its own id
with a parent one level shallower inside the current maps, and every file
node hangs off its chain parent. -/

/-- The node's parent resolves in the given maps one level shallower. -/
def parentOk (layerNodes : List (String × ModuleNode)) (groupNodes : List (Id × ModuleNode))
    (n : ModuleNode) : Prop :=
  (∃ L, n.parent_id = some (Id.layer L) ∧ (dictGet layerNodes L).isSome ∧ n.level = 2) ∨
  (∃ pid q, n.parent_id = some pid ∧ dictGet groupNodes pid = some q ∧ n.level = q.level + 1)

/-- Well-formedness of the group dict relative to a layer dict. -/
def groupsOk (layerNodes : List (String × ModuleNode)) (G : List (Id × ModuleNode)) : Prop :=
  (G.map Prod.fst).Nodup ∧
  ∀ p ∈ G, p.2.id = p.1 ∧ (∃ L g, p.1 = Id.group L g) ∧ 2 ≤ p.2.level ∧
    parentOk layerNodes G p.2

/-- The running chain triple points at an existing node of the recorded
level (the layer node at level 1 or a stored group node). -/
def chainOk (layerNodes : List (String × ModuleNode)) (acc : GroupAcc) : Prop :=
  acc.deepest = acc.parentId ∧ 1 ≤ acc.parentLevel ∧
  ((∃ L, acc.parentId = Id.layer L ∧ (dictGet layerNodes L).isSome ∧ acc.parentLevel = 1) ∨
   (∃ q, dictGet acc.groupNodes acc.parentId = some q ∧ q.level = acc.parentLevel ∧
     2 ≤ q.level))

lemma parentOk_mono {L L' : List (String × ModuleNode)} {G G' : List (Id × ModuleNode)}
    (hL : ∀ k, (dictGet L k).isSome → (dictGet L' k).isSome)
    (hG : ∀ k v, dictGet G k = some v → dictGet G' k = some v)
    {n : ModuleNode} (h : parentOk L G n) : parentOk L' G' n := by
  rcases h with ⟨Ln, h1, h2, h3⟩ | ⟨pid, q, h1, h2, h3⟩
  · exact Or.inl ⟨Ln, h1, hL Ln h2, h3⟩
  · exact Or.inr ⟨pid, q, h1, hG pid q h2, h3⟩

lemma groupStep_eq_insert {layer : String} {acc : GroupAcc} {gpath : String}
    (h : dictGet acc.groupNodes (Id.group layer gpath) = none) :
    groupStep layer acc gpath =
      { parentId := Id.group layer gpath
        parentLevel := acc.parentLevel + 1
        deepest := Id.group layer gpath
        groupNodes := acc.groupNodes ++ [(Id.group layer gpath,
          { id := Id.group layer gpath
            name := if posixName gpath = "" then gpath else posixName gpath
            layer := layer
            level := acc.parentLevel + 1
            path := gpath
            parent_id := some acc.parentId
            evidence_ids := [] })] } := by
  unfold groupStep
  simp only [h, Option.isNone_none, if_true, dictGet_append_singleton_of_none h,
    Option.map_some', Option.getD_some]

lemma groupStep_eq_found {layer : String} {acc : GroupAcc} {gpath : String}
    {q : ModuleNode} (h : dictGet acc.groupNodes (Id.group layer gpath) = some q) :
    groupStep layer acc gpath =
      { parentId := Id.group layer gpath
        parentLevel := q.level
        deepest := Id.group layer gpath
        groupNodes := acc.groupNodes } := by
  unfold groupStep
  simp only [h, Option.isNone_some, Bool.false_eq_true, if_false, Option.map_some',
    Option.getD_some]

lemma groupStep_ok {layerNodes : List (String × ModuleNode)} {layer : String}
    {acc : GroupAcc} {gpath : String}
    (hg : groupsOk layerNodes acc.groupNodes) (hc : chainOk layerNodes acc) :
    groupsOk layerNodes (groupStep layer acc gpath).groupNodes ∧
    chainOk layerNodes (groupStep layer acc gpath) ∧
    (∀ k v, dictGet acc.groupNodes k = some v →
      dictGet (groupStep layer acc gpath).groupNodes k = some v) := by
  obtain ⟨hdeep, hlvl, hpar⟩ := hc
  cases hfound : dictGet acc.groupNodes (Id.group layer gpath) with
  | some q =>
    rw [groupStep_eq_found hfound]
    have hq2 : 2 ≤ q.level := by
      have hmem := dictGet_key_of_eq_some hfound
      exact ((hg.2 _ hmem).2.2).1
    exact ⟨hg, ⟨rfl, show 1 ≤ q.level by omega, Or.inr ⟨q, hfound, rfl, hq2⟩⟩,
      fun k v hv => hv⟩
  | none =>
    rw [groupStep_eq_insert hfound]
    have hpres : ∀ (w : Id × ModuleNode) k v, dictGet acc.groupNodes k = some v →
        dictGet (acc.groupNodes ++ [w]) k = some v := by
      intro w k v hv
      rw [dictGet_append_of_isSome (by rw [hv]; rfl)]
      exact hv
    refine ⟨⟨?_, ?_⟩, ⟨rfl, show 1 ≤ acc.parentLevel + 1 by omega,
      Or.inr ⟨_, dictGet_append_singleton_of_none hfound, rfl,
        show 2 ≤ acc.parentLevel + 1 by omega⟩⟩, hpres _⟩
    · rw [List.map_append, List.nodup_append]
      refine ⟨hg.1, List.nodup_singleton _, ?_⟩
      intro a ha hb
      simp only [List.map_cons, List.map_nil, List.mem_singleton] at hb
      subst hb
      obtain ⟨p, hp, hpk⟩ := List.mem_map.mp ha
      have : (dictGet acc.groupNodes (Id.group layer gpath)).isSome :=
        dictGet_isSome_iff.mpr ⟨p, hp, hpk⟩
      rw [hfound] at this
      simp at this
    · intro p hp
      rcases List.mem_append.mp hp with hold | hnew
      · obtain ⟨h1, h2, h3, h4⟩ := hg.2 p hold
        exact ⟨h1, h2, h3, parentOk_mono (fun k hk => hk) (hpres _) h4⟩
      · simp only [List.mem_singleton] at hnew
        subst hnew
        refine ⟨rfl, ⟨layer, gpath, rfl⟩, show 2 ≤ acc.parentLevel + 1 by omega, ?_⟩
        rcases hpar with ⟨L, hpid, hsome, hone⟩ | ⟨q, hqget, hqlvl, hq2⟩
        · exact Or.inl ⟨L, by rw [hpid], hsome, show acc.parentLevel + 1 = 2 by omega⟩
        · exact Or.inr ⟨acc.parentId, q, rfl, hpres _ _ _ hqget,
            show acc.parentLevel + 1 = q.level + 1 by omega⟩

lemma chainFold_ok {layerNodes : List (String × ModuleNode)} {layer : String}
    (gpaths : List String) (acc : GroupAcc)
    (hg : groupsOk layerNodes acc.groupNodes) (hc : chainOk layerNodes acc) :
    groupsOk layerNodes (gpaths.foldl (groupStep layer) acc).groupNodes ∧
    chainOk layerNodes (gpaths.foldl (groupStep layer) acc) ∧
    (∀ k v, dictGet acc.groupNodes k = some v →
      dictGet (gpaths.foldl (groupStep layer) acc).groupNodes k = some v) := by
  induction gpaths generalizing acc with
  | nil => exact ⟨hg, hc, fun k v hv => hv⟩
  | cons g rest ih =>
    obtain ⟨hg', hc', hpres'⟩ := @groupStep_ok layerNodes layer acc g hg hc
    obtain ⟨hg'', hc'', hpres''⟩ := ih (groupStep layer acc g) hg' hc'
    exact ⟨hg'', hc'', fun k v hv => hpres'' k v (hpres' k v hv)⟩

/-- The module-loop invariant of build_architecture_model. -/
structure StInv (rules : RulesConfig) (st : BuildSt) : Prop where
  layerVal : ∀ p ∈ st.layerNodes, p.2.id = Id.layer p.1 ∧ p.2.level = 1 ∧
    p.2.parent_id = some (Id.system rules.system_name)
  layerKeys : (st.layerNodes.map Prod.fst).Nodup
  groups : groupsOk st.layerNodes st.groupNodes
  fileVal : ∀ f ∈ st.fileNodes, f.id = Id.file f.path ∧ 2 ≤ f.level ∧
    parentOk st.layerNodes st.groupNodes f

lemma ensureLayer_props {rules : RulesConfig} {LN : List (String × ModuleNode)}
    {layer : String}
    (hval : ∀ p ∈ LN, p.2.id = Id.layer p.1 ∧ p.2.level = 1 ∧
      p.2.parent_id = some (Id.system rules.system_name))
    (hkeys : (LN.map Prod.fst).Nodup) :
    (∀ p ∈ ensureLayer rules LN layer, p.2.id = Id.layer p.1 ∧ p.2.level = 1 ∧
      p.2.parent_id = some (Id.system rules.system_name)) ∧
    ((ensureLayer rules LN layer).map Prod.fst).Nodup ∧
    (dictGet (ensureLayer rules LN layer) layer).isSome ∧
    (∀ k, (dictGet LN k).isSome → (dictGet (ensureLayer rules LN layer) k).isSome) := by
  unfold ensureLayer
  cases hL : dictGet LN layer with
  | some m =>
    simp only [hL, Option.isNone_some, Bool.false_eq_true, if_false]
    exact ⟨hval, hkeys, rfl, fun k hk => hk⟩
  | none =>
    simp only [hL, Option.isNone_none, if_true]
    refine ⟨?_, ?_, ?_, ?_⟩
    · intro p hp
      rcases List.mem_append.mp hp with hold | hnew
      · exact hval p hold
      · simp only [List.mem_singleton] at hnew
        subst hnew
        exact ⟨rfl, rfl, rfl⟩
    · rw [List.map_append, List.nodup_append]
      refine ⟨hkeys, List.nodup_singleton _, ?_⟩
      intro x hx hb
      simp only [List.map_cons, List.map_nil, List.mem_singleton] at hb
      obtain ⟨p, hp, hpk⟩ := List.mem_map.mp hx
      have hsome : (dictGet LN x).isSome := dictGet_isSome_iff.mpr ⟨p, hp, hpk⟩
      rw [hb, hL] at hsome
      simp at hsome
    · rw [dictGet_append_singleton_of_none hL]; rfl
    · intro k hk
      cases hkk : dictGet LN k with
      | none => rw [hkk] at hk; simp at hk
      | some v =>
        rw [dictGet_append_of_isSome (by rw [hkk]; rfl), hkk]; rfl

lemma dictGet_layer_id {rules : RulesConfig} {LN : List (String × ModuleNode)}
    {layer : String} {n : ModuleNode}
    (hval : ∀ p ∈ LN, p.2.id = Id.layer p.1 ∧ p.2.level = 1 ∧
      p.2.parent_id = some (Id.system rules.system_name))
    (h : dictGet LN layer = some n) : n.id = Id.layer layer :=
  (hval (layer, n) (dictGet_key_of_eq_some h)).1

lemma processFact_ok (rules : RulesConfig) (st : BuildSt) (fact : ModuleFact)
    (h : StInv rules st) :
    StInv rules (processFact rules st fact) ∧
    (processFact rules st fact).fileNodes.map (fun f => f.path) =
      st.fileNodes.map (fun f => f.path) ++ [fact.path] ∧
    (∀ k, (dictGet st.layerNodes k).isSome →
      (dictGet (processFact rules st fact).layerNodes k).isSome) ∧
    (dictGet (processFact rules st fact).layerNodes (pickLayer fact.path rules)).isSome ∧
    (processFact rules st fact).factToFile =
      dictSet st.factToFile fact.id (Id.file fact.path) ∧
    (∃ g, (processFact rules st fact).factToGroup = dictSet st.factToGroup fact.id g ∧
      (groupPaths fact.path rules.module_depth = [] →
        g = Id.layer (pickLayer fact.path rules))) ∧
    (∀ k v, dictGet st.groupNodes k = some v →
      dictGet (processFact rules st fact).groupNodes k = some v) := by
  obtain ⟨hval, hkeys, hgroups, hfiles⟩ := h
  obtain ⟨hval', hkeys', hsome', hpresL⟩ :=
    @ensureLayer_props rules st.layerNodes (pickLayer fact.path rules) hval hkeys
  obtain ⟨m, hm⟩ := Option.isSome_iff_exists.mp hsome'
  have hmid : m.id = Id.layer (pickLayer fact.path rules) := dictGet_layer_id hval' hm
  have hlayerNodeId :
      (((dictGet (ensureLayer rules st.layerNodes (pickLayer fact.path rules))
        (pickLayer fact.path rules)).map (fun n => n.id))).getD
          (Id.layer (pickLayer fact.path rules)) =
        Id.layer (pickLayer fact.path rules) := by
    rw [hm, Option.map_some', Option.getD_some, hmid]
  have hgroups' : groupsOk (ensureLayer rules st.layerNodes (pickLayer fact.path rules))
      st.groupNodes :=
    ⟨hgroups.1, fun p hp =>
      ⟨(hgroups.2 p hp).1, (hgroups.2 p hp).2.1, (hgroups.2 p hp).2.2.1,
        parentOk_mono hpresL (fun k v hv => hv) (hgroups.2 p hp).2.2.2⟩⟩
  have hchain0 : chainOk (ensureLayer rules st.layerNodes (pickLayer fact.path rules))
      { parentId := Id.layer (pickLayer fact.path rules), parentLevel := 1,
        deepest := Id.layer (pickLayer fact.path rules), groupNodes := st.groupNodes } :=
    ⟨rfl, le_refl 1, Or.inl ⟨pickLayer fact.path rules, rfl, hsome', rfl⟩⟩
  obtain ⟨hgroupsF, hchainF, hpresG⟩ :=
    @chainFold_ok _ (pickLayer fact.path rules)
      (groupPaths fact.path rules.module_depth) _ hgroups' hchain0
  -- Evaluate processFact with the layer-node id resolved.
  have heq : processFact rules st fact =
      { fileNodes := st.fileNodes ++ [
          { id := Id.file fact.path
            name := if posixName fact.path = "" then fact.path else posixName fact.path
            layer := pickLayer fact.path rules
            level := ((groupPaths fact.path rules.module_depth).foldl
              (groupStep (pickLayer fact.path rules))
              { parentId := Id.layer (pickLayer fact.path rules), parentLevel := 1,
                deepest := Id.layer (pickLayer fact.path rules),
                groupNodes := st.groupNodes }).parentLevel + 1
            path := fact.path
            parent_id := some (((groupPaths fact.path rules.module_depth).foldl
              (groupStep (pickLayer fact.path rules))
              { parentId := Id.layer (pickLayer fact.path rules), parentLevel := 1,
                deepest := Id.layer (pickLayer fact.path rules),
                groupNodes := st.groupNodes }).parentId)
            evidence_ids := [] }]
        layerNodes := ensureLayer rules st.layerNodes (pickLayer fact.path rules)
        groupNodes := ((groupPaths fact.path rules.module_depth).foldl
          (groupStep (pickLayer fact.path rules))
          { parentId := Id.layer (pickLayer fact.path rules), parentLevel := 1,
            deepest := Id.layer (pickLayer fact.path rules),
            groupNodes := st.groupNodes }).groupNodes
        factToFile := dictSet st.factToFile fact.id (Id.file fact.path)
        factToGroup := dictSet st.factToGroup fact.id
          (((groupPaths fact.path rules.module_depth).foldl
            (groupStep (pickLayer fact.path rules))
            { parentId := Id.layer (pickLayer fact.path rules), parentLevel := 1,
              deepest := Id.layer (pickLayer fact.path rules),
              groupNodes := st.groupNodes }).deepest) } := by
    simp only [processFact]
    rw [hlayerNodeId]
  rw [heq]
  obtain ⟨hdeepF, hlvlF, hparF⟩ := hchainF
  refine ⟨⟨hval', hkeys', hgroupsF, ?_⟩, by simp, fun k hk => hpresL k hk, hsome', rfl,
    ⟨_, rfl, ?_⟩, fun k v hv => hpresG k v hv⟩
  · intro f hf
    rcases List.mem_append.mp hf with hold | hnew
    · obtain ⟨h1, h2, h3⟩ := hfiles f hold
      exact ⟨h1, h2, parentOk_mono hpresL hpresG h3⟩
    · simp only [List.mem_singleton] at hnew
      subst hnew
      refine ⟨rfl, ?_, ?_⟩
      · show 2 ≤ _ + 1
        omega
      · rcases hparF with ⟨L, hpid, hsomeL, hone⟩ | ⟨q, hqget, hqlvl, hq2⟩
        · exact Or.inl ⟨L, by rw [hpid], hsomeL, by show _ + 1 = 2; omega⟩
        · exact Or.inr ⟨_, q, rfl, hqget, by show _ + 1 = q.level + 1; omega⟩
  · intro hnil
    rw [hnil]
    rfl

lemma initBuildSt_inv (rules : RulesConfig) :
    StInv rules ⟨[], [], [], [], []⟩ := by
  refine ⟨?_, ?_, ⟨?_, ?_⟩, ?_⟩ <;> simp

lemma buildFold_ok (rules : RulesConfig) (facts : List ModuleFact) (st : BuildSt)
    (h : StInv rules st) :
    StInv rules (facts.foldl (processFact rules) st) ∧
    (facts.foldl (processFact rules) st).fileNodes.map (fun f => f.path) =
      st.fileNodes.map (fun f => f.path) ++ facts.map (fun f => f.path) := by
  induction facts generalizing st with
  | nil => exact ⟨h, by simp⟩
  | cons f rest ih =>
    obtain ⟨h', hpaths, -⟩ := processFact_ok rules st f h
    obtain ⟨h'', hpaths'⟩ := ih _ h'
    refine ⟨h'', ?_⟩
    rw [List.foldl_cons, hpaths', hpaths]
    simp

/-- The pre-rename modules list of build_architecture_model: the synthetic
system root, the file leaves in processing order, then the layer and group
dict values in insertion order. -/
def builderModulesPre (rules : RulesConfig) (facts : List ModuleFact) : List ModuleNode :=
  let st := facts.foldl (processFact rules) ⟨[], [], [], [], []⟩
  { id := Id.system rules.system_name, name := rules.system_name, layer := "System",
    level := 0, path := "/", parent_id := none, evidence_ids := [] } ::
    st.fileNodes ++ (st.layerNodes.map (fun p => p.2)) ++ (st.groupNodes.map (fun p => p.2))

lemma buildArchitectureModel_modules_eq (provider : List ModuleDraft → EnrichmentResult)
    (snapshot : FactsSnapshot) (rules : RulesConfig) (generatedAt : String) :
    ∃ names, (buildArchitectureModel provider snapshot rules generatedAt).modules =
      builderRename (builderModulesPre rules snapshot.modules) names :=
  ⟨_, rfl⟩

lemma builderModulesPre_core (rules : RulesConfig) (facts : List ModuleFact)
    (hnd : (facts.map (fun f => f.path)).Nodup) :
    ((builderModulesPre rules facts).map (fun n => n.id)).Nodup ∧
    (∀ n ∈ builderModulesPre rules facts,
      (n.level = 0 ↔ n.id = Id.system rules.system_name)) ∧
    ((⟨Id.system rules.system_name, rules.system_name, "System", 0, "/", none, []⟩ :
      ModuleNode) ∈ builderModulesPre rules facts) ∧
    (∀ n ∈ builderModulesPre rules facts, n.id ≠ Id.system rules.system_name →
      ∃ pid, n.parent_id = some pid ∧ ∃ q ∈ builderModulesPre rules facts,
        q.id = pid ∧ q.level + 1 = n.level) := by
  obtain ⟨hinv, hpaths⟩ := buildFold_ok rules facts ⟨[], [], [], [], []⟩ (initBuildSt_inv rules)
  simp only [List.map_nil, List.nil_append] at hpaths
  obtain ⟨hval, hkeys, ⟨hgkeys, hgval⟩, hfiles⟩ := hinv
  set st := facts.foldl (processFact rules) (⟨[], [], [], [], []⟩ : BuildSt) with hst
  -- id lists of the three sections
  have hfileIds : st.fileNodes.map (fun n => n.id) =
      (facts.map (fun f => f.path)).map Id.file := by
    rw [← hpaths, List.map_map]
    exact List.map_congr_left (fun f hf => (hfiles f hf).1)
  have hlayerIds : (st.layerNodes.map (fun p => p.2)).map (fun n => n.id) =
      (st.layerNodes.map Prod.fst).map Id.layer := by
    rw [List.map_map, List.map_map]
    exact List.map_congr_left (fun p hp => (hval p hp).1)
  have hgroupIds : (st.groupNodes.map (fun p => p.2)).map (fun n => n.id) =
      st.groupNodes.map Prod.fst := by
    rw [List.map_map]
    exact List.map_congr_left (fun p hp => (hgval p hp).1)
  have hmem : ∀ n, n ∈ builderModulesPre rules facts ↔
      (n = ⟨Id.system rules.system_name, rules.system_name, "System", 0, "/", none, []⟩ ∨
        n ∈ st.fileNodes ∨ (∃ p ∈ st.layerNodes, p.2 = n) ∨
        (∃ p ∈ st.groupNodes, p.2 = n)) := by
    intro n
    simp [builderModulesPre, ← hst, List.mem_append, List.mem_map, or_assoc]
  have hidsEq : (builderModulesPre rules facts).map (fun n => n.id) =
      Id.system rules.system_name ::
        ((facts.map (fun f => f.path)).map Id.file ++
          ((st.layerNodes.map Prod.fst).map Id.layer ++ st.groupNodes.map Prod.fst)) := by
    simp only [builderModulesPre, ← hst, List.map_cons, List.map_append]
    rw [hfileIds, hlayerIds, hgroupIds, List.append_assoc]
    rfl
  have hshapeG : ∀ x ∈ st.groupNodes.map Prod.fst, ∃ L g, x = Id.group L g := by
    intro x hx
    obtain ⟨p, hpmem, hp⟩ := List.mem_map.mp hx
    obtain ⟨-, hshape, -, -⟩ := hgval p hpmem
    rw [← hp]
    exact hshape
  refine ⟨?_, ?_, ?_, ?_⟩
  · -- Nodup of all node ids
    rw [hidsEq, List.nodup_cons]
    constructor
    · intro hmem'
      rcases List.mem_append.mp hmem' with hf | hlg
      · obtain ⟨p, -, hp⟩ := List.mem_map.mp hf
        exact Id.noConfusion hp
      · rcases List.mem_append.mp hlg with hl | hg
        · obtain ⟨p, -, hp⟩ := List.mem_map.mp hl
          exact Id.noConfusion hp
        · obtain ⟨L, g, hLg⟩ := hshapeG _ hg
          exact Id.noConfusion hLg
    · rw [List.nodup_append]
      refine ⟨hnd.map (fun a b h => Id.file.inj h), ?_, ?_⟩
      · rw [List.nodup_append]
        refine ⟨hkeys.map (fun a b h => Id.layer.inj h), hgkeys, ?_⟩
        intro a ha hb
        obtain ⟨k, -, hk⟩ := List.mem_map.mp ha
        obtain ⟨L, g, hLg⟩ := hshapeG a hb
        rw [← hk] at hLg
        exact Id.noConfusion hLg
      · intro a ha hb
        obtain ⟨p, -, hp⟩ := List.mem_map.mp ha
        rcases List.mem_append.mp hb with hl | hg
        · obtain ⟨k, -, hk⟩ := List.mem_map.mp hl
          rw [← hp] at hk
          exact Id.noConfusion hk
        · obtain ⟨L, g, hLg⟩ := hshapeG a hg
          rw [← hp] at hLg
          exact Id.noConfusion hLg
  · -- level-0 characterization
    intro n hn
    rcases (hmem n).mp hn with rfl | hf | ⟨p, hp, rfl⟩ | ⟨p, hp, rfl⟩
    · simp
    · obtain ⟨hid, hlvl, -⟩ := hfiles n hf
      constructor
      · intro h0; omega
      · intro hs; rw [hid] at hs; exact absurd hs (fun h => Id.noConfusion h)
    · obtain ⟨hid, hlvl, -⟩ := hval p hp
      constructor
      · intro h0; rw [hlvl] at h0; exact absurd h0 one_ne_zero
      · intro hs; rw [hid] at hs; exact absurd hs (fun h => Id.noConfusion h)
    · obtain ⟨hid, ⟨L, g, hLg⟩, hlvl, -⟩ := hgval p hp
      constructor
      · intro h0; omega
      · intro hs; rw [hid, hLg] at hs; exact absurd hs (fun h => Id.noConfusion h)
  · exact (hmem _).mpr (Or.inl rfl)
  · -- every non-root node has a parent one level shallower in the list
    intro n hn hne
    have hsysMem : (⟨Id.system rules.system_name, rules.system_name, "System", 0, "/",
        none, []⟩ : ModuleNode) ∈ builderModulesPre rules facts := (hmem _).mpr (Or.inl rfl)
    have fromParentOk : parentOk st.layerNodes st.groupNodes n →
        ∃ pid, n.parent_id = some pid ∧ ∃ q ∈ builderModulesPre rules facts,
          q.id = pid ∧ q.level + 1 = n.level := by
      rintro (⟨L, hpid, hLsome, hlvl⟩ | ⟨pid, q, hpid, hq, hlvl⟩)
      · obtain ⟨mL, hmL⟩ := Option.isSome_iff_exists.mp hLsome
        obtain ⟨hmLid, hmLlvl, -⟩ := hval (L, mL) (dictGet_key_of_eq_some hmL)
        refine ⟨Id.layer L, hpid, mL, (hmem mL).mpr (Or.inr (Or.inr (Or.inl
          ⟨(L, mL), dictGet_key_of_eq_some hmL, rfl⟩))), hmLid, ?_⟩
        rw [hmLlvl, hlvl]
      · obtain ⟨hqid, -, -, -⟩ := hgval (pid, q) (dictGet_key_of_eq_some hq)
        exact ⟨pid, hpid, q, (hmem q).mpr (Or.inr (Or.inr (Or.inr
          ⟨(pid, q), dictGet_key_of_eq_some hq, rfl⟩))), hqid, hlvl.symm⟩
    rcases (hmem n).mp hn with rfl | hf | ⟨p, hp, rfl⟩ | ⟨p, hp, rfl⟩
    · exact absurd rfl hne
    · exact fromParentOk (hfiles n hf).2.2
    · obtain ⟨hid, hlvl, hpar⟩ := hval p hp
      exact ⟨Id.system rules.system_name, hpar,
        ⟨Id.system rules.system_name, rules.system_name, "System", 0, "/", none, []⟩,
        hsysMem, rfl, by rw [hlvl]⟩
    · exact fromParentOk (hgval p hp).2.2.2

lemma builderRename_proj (mods : List ModuleNode) (names : List (Id × String)) :
    (builderRename mods names).map (fun n => (n.id, n.level, n.parent_id)) =
      mods.map (fun n => (n.id, n.level, n.parent_id)) := by
  unfold builderRename
  rw [List.map_map]
  refine List.map_congr_left ?_
  intro n _
  simp only [Function.comp_apply]
  cases h : dictGet names n.id <;> simp [h]

/-- C2: for module facts with pairwise-distinct paths, the built model has
pairwise-distinct node ids, a single level-0 root (the synthetic system
node), and every other node's parent_id resolves to exactly one node whose
level is one less. -/
theorem builder_tree_invariant_c2
    (provider : List ModuleDraft → EnrichmentResult) (snapshot : FactsSnapshot)
    (rules : RulesConfig) (generatedAt : String)
    (hnd : (snapshot.modules.map (fun f => f.path)).Nodup) :
    ((buildArchitectureModel provider snapshot rules generatedAt).modules.map
      (fun n => n.id)).Nodup ∧
    (∀ n ∈ (buildArchitectureModel provider snapshot rules generatedAt).modules,
      (n.level = 0 ↔ n.id = Id.system rules.system_name)) ∧
    (∃ root ∈ (buildArchitectureModel provider snapshot rules generatedAt).modules,
      root.id = Id.system rules.system_name ∧ root.level = 0) ∧
    (∀ n ∈ (buildArchitectureModel provider snapshot rules generatedAt).modules,
      n.id ≠ Id.system rules.system_name →
      ∃ pid, n.parent_id = some pid ∧
        ∃ q ∈ (buildArchitectureModel provider snapshot rules generatedAt).modules,
          q.id = pid ∧ q.level + 1 = n.level ∧
          ∀ q' ∈ (buildArchitectureModel provider snapshot rules generatedAt).modules,
            q'.id = pid → q' = q) := by
  obtain ⟨names, hmods⟩ :=
    buildArchitectureModel_modules_eq provider snapshot rules generatedAt
  obtain ⟨hnodup, hlvl0, hroot, hparent⟩ := builderModulesPre_core rules snapshot.modules hnd
  rw [hmods]
  have hproj := builderRename_proj (builderModulesPre rules snapshot.modules) names
  have hids : (builderRename (builderModulesPre rules snapshot.modules) names).map
      (fun n => n.id) = (builderModulesPre rules snapshot.modules).map (fun n => n.id) := by
    have := congrArg (List.map (fun t : Id × Nat × Option Id => t.1)) hproj
    simpa [List.map_map] using this
  have hmemR : ∀ n ∈ builderRename (builderModulesPre rules snapshot.modules) names,
      ∃ n0 ∈ builderModulesPre rules snapshot.modules,
        n0.id = n.id ∧ n0.level = n.level ∧ n0.parent_id = n.parent_id := by
    intro n hn
    have hmm : (n.id, n.level, n.parent_id) ∈
        (builderModulesPre rules snapshot.modules).map
          (fun n => (n.id, n.level, n.parent_id)) := by
      rw [← hproj]
      exact List.mem_map_of_mem _ hn
    obtain ⟨n0, hn0, heq⟩ := List.mem_map.mp hmm
    obtain ⟨h1, h2, h3⟩ : n0.id = n.id ∧ n0.level = n.level ∧ n0.parent_id = n.parent_id := by
      simpa [Prod.ext_iff] using heq
    exact ⟨n0, hn0, h1, h2, h3⟩
  have hmemP : ∀ n0 ∈ builderModulesPre rules snapshot.modules,
      ∃ n ∈ builderRename (builderModulesPre rules snapshot.modules) names,
        n.id = n0.id ∧ n.level = n0.level ∧ n.parent_id = n0.parent_id := by
    intro n0 hn0
    have hmm : (n0.id, n0.level, n0.parent_id) ∈
        (builderRename (builderModulesPre rules snapshot.modules) names).map
          (fun n => (n.id, n.level, n.parent_id)) := by
      rw [hproj]
      exact List.mem_map_of_mem _ hn0
    obtain ⟨n, hn, heq⟩ := List.mem_map.mp hmm
    obtain ⟨h1, h2, h3⟩ : n.id = n0.id ∧ n.level = n0.level ∧ n.parent_id = n0.parent_id := by
      simpa [Prod.ext_iff] using heq
    exact ⟨n, hn, h1, h2, h3⟩
  have hnodupR : ((builderRename (builderModulesPre rules snapshot.modules) names).map
      (fun n => n.id)).Nodup := by rw [hids]; exact hnodup
  refine ⟨hnodupR, ?_, ?_, ?_⟩
  · intro n hn
    obtain ⟨n0, hn0, h1, h2, -⟩ := hmemR n hn
    rw [← h1, ← h2]
    exact hlvl0 n0 hn0
  · obtain ⟨root0, hr0, hrid, hrlvl⟩ : ∃ root ∈ builderModulesPre rules snapshot.modules,
        root.id = Id.system rules.system_name ∧ root.level = 0 := ⟨_, hroot, rfl, rfl⟩
    obtain ⟨r, hr, h1, h2, -⟩ := hmemP root0 hr0
    exact ⟨r, hr, by rw [h1, hrid], by rw [h2, hrlvl]⟩
  · intro n hn hne
    obtain ⟨n0, hn0, h1, h2, h3⟩ := hmemR n hn
    obtain ⟨pid, hpid, q0, hq0, hqid, hqlvl⟩ := hparent n0 hn0 (by rw [h1]; exact hne)
    obtain ⟨q, hq, hq1, hq2, -⟩ := hmemP q0 hq0
    refine ⟨pid, by rw [← h3]; exact hpid, q, hq, by rw [hq1]; exact hqid, ?_, ?_⟩
    · rw [hq2, ← h2]
      exact hqlvl
    · intro q' hq' hq'id
      exact List.inj_on_of_nodup_map hnodupR hq' hq (by rw [hq'id, hq1, hqid])

/-- Sample extraction output used as a concrete instantiation: two files in
two directories. -/
def sampleSnapshot : FactsSnapshot :=
  { snapshot_id := "snap", commit_id := "c", repo_root := "r", created_at := "t",
    modules := [⟨"m1", "backend.main", "backend/main.py", "python"⟩,
      ⟨"m2", "frontend/app.js", "frontend/app.js", "javascript"⟩],
    symbols := [], interfaces := [], edges := [], evidences := [],
    metadata := ⟨⟨2, 2, 1, []⟩, ⟨1, 1, 0, 0⟩⟩ }

/-- A rules configuration with no layer rules: everything falls into the
default layer. -/
def sampleRules : RulesConfig :=
  { system_name := "X", module_depth := 2,
    includeMatch := fun _ => true, excludeMatch := fun _ => false,
    layers := [], default_layer := "Workspace", interfaces := [] }

/-- The disabled-LLM provider (provider.NoopProvider.enrich). -/
def noopProvider : List ModuleDraft → EnrichmentResult := fun _ => ⟨[], []⟩

/-- Witness for C2 at the concrete snapshot. -/
theorem builder_tree_invariant_c2_witness :
    (sampleSnapshot.modules.map (fun f => f.path)).Nodup ∧
    (((buildArchitectureModel noopProvider sampleSnapshot sampleRules "now").modules.map
      (fun n => n.id)).Nodup ∧
    (∀ n ∈ (buildArchitectureModel noopProvider sampleSnapshot sampleRules "now").modules,
      (n.level = 0 ↔ n.id = Id.system sampleRules.system_name)) ∧
    (∃ root ∈ (buildArchitectureModel noopProvider sampleSnapshot sampleRules "now").modules,
      root.id = Id.system sampleRules.system_name ∧ root.level = 0) ∧
    (∀ n ∈ (buildArchitectureModel noopProvider sampleSnapshot sampleRules "now").modules,
      n.id ≠ Id.system sampleRules.system_name →
      ∃ pid, n.parent_id = some pid ∧
        ∃ q ∈ (buildArchitectureModel noopProvider sampleSnapshot sampleRules "now").modules,
          q.id = pid ∧ q.level + 1 = n.level ∧
          ∀ q' ∈ (buildArchitectureModel noopProvider sampleSnapshot sampleRules "now").modules,
            q'.id = pid → q' = q)) :=
  ⟨by decide,
    builder_tree_invariant_c2 noopProvider sampleSnapshot sampleRules "now" (by decide)⟩

/-! ## Root-level files and the dependency roll-up (claim C9) -/

lemma processFact_factToGroup (rules : RulesConfig) (st : BuildSt) (fact : ModuleFact) :
    ∃ g, (processFact rules st fact).factToGroup = dictSet st.factToGroup fact.id g :=
  ⟨_, rfl⟩

lemma buildFold_factToGroup_persist (rules : RulesConfig) (facts : List ModuleFact)
    (st : BuildSt) (fid : String) (v : Id)
    (hnot : ∀ x ∈ facts, x.id ≠ fid) (hv : dictGet st.factToGroup fid = some v) :
    dictGet ((facts.foldl (processFact rules) st).factToGroup) fid = some v := by
  induction facts generalizing st with
  | nil => exact hv
  | cons x rest ih =>
    rw [List.foldl_cons]
    refine ih (processFact rules st x) (fun y hy => hnot y (List.mem_cons_of_mem x hy)) ?_
    obtain ⟨g, hg⟩ := processFact_factToGroup rules st x
    rw [hg, dictGet_dictSet_ne (fun hc => hnot x (List.mem_cons_self x rest) hc.symm)]
    exact hv

lemma buildFold_layer_mono (rules : RulesConfig) (facts : List ModuleFact) (st : BuildSt)
    (h : StInv rules st) (k : String) (hk : (dictGet st.layerNodes k).isSome) :
    (dictGet ((facts.foldl (processFact rules) st).layerNodes) k).isSome := by
  induction facts generalizing st with
  | nil => exact hk
  | cons x rest ih =>
    obtain ⟨h', -, hmono, -, -, -, -⟩ := processFact_ok rules st x h
    exact ih (processFact rules st x) h' (hmono k hk)

lemma buildFold_fact_maps (rules : RulesConfig) (facts : List ModuleFact) (st : BuildSt)
    (h : StInv rules st) (f : ModuleFact) (hf : f ∈ facts)
    (hids : (facts.map (fun x => x.id)).Nodup) :
    (dictGet ((facts.foldl (processFact rules) st).layerNodes)
      (pickLayer f.path rules)).isSome ∧
    (groupPaths f.path rules.module_depth = [] →
      dictGet ((facts.foldl (processFact rules) st).factToGroup) f.id =
        some (Id.layer (pickLayer f.path rules))) := by
  induction facts generalizing st with
  | nil => cases hf
  | cons x rest ih =>
    rw [List.map_cons, List.nodup_cons] at hids
    obtain ⟨h', -, -, hpresent, -, ⟨g, hset, hgnil⟩, -⟩ := processFact_ok rules st x h
    rcases List.mem_cons.mp hf with rfl | hrest
    · rw [List.foldl_cons]
      constructor
      · exact buildFold_layer_mono rules rest _ h' _ hpresent
      · intro hnil
        refine buildFold_factToGroup_persist rules rest _ f.id _ ?_ ?_
        · intro y hy hc
          exact hids.1 (hc ▸ List.mem_map_of_mem (fun x => x.id) hy)
        · rw [hset, dictGet_dictSet_self, hgnil hnil]
    · rw [List.foldl_cons]
      exact ih (processFact rules st x) h' hrest hids.2

/-- The (src, dst, kind, label) key of an architecture edge. -/
def edgeKeyOf (e : ArchitectureEdge) : Id × Id × String × String :=
  (e.src_id, e.dst_id, e.kind, e.label)

/-- The dedup set mirrors the edge list: a key is seen exactly when an edge
with that key has been emitted. -/
def SeenInv (acc : EdgeAcc) : Prop :=
  ∀ k, k ∈ acc.seen ↔ ∃ e ∈ acc.edges, edgeKeyOf e = k

lemma SeenInv_append {acc : EdgeAcc} (e : ArchitectureEdge) (hinv : SeenInv acc) :
    SeenInv ⟨acc.edges ++ [e], acc.seen ++ [edgeKeyOf e]⟩ := by
  intro k
  simp only [List.mem_append, List.mem_singleton]
  constructor
  · rintro (hs | rfl)
    · obtain ⟨e', he', hk⟩ := (hinv k).mp hs
      exact ⟨e', Or.inl he', hk⟩
    · exact ⟨e, Or.inr rfl, rfl⟩
  · rintro ⟨e', he' | rfl, hk⟩
    · exact Or.inl ((hinv k).mpr ⟨e', he', hk⟩)
    · exact Or.inr hk.symm

lemma edgeStep_props (fTF fTG : List (String × Id)) (acc : EdgeAcc) (item : EdgeFact)
    (hinv : SeenInv acc) :
    SeenInv (edgeStep fTF fTG acc item) ∧
    (∀ e ∈ acc.edges, e ∈ (edgeStep fTF fTG acc item).edges) ∧
    (∀ k ∈ acc.seen, k ∈ (edgeStep fTF fTG acc item).seen) ∧
    (∀ srcG dstG, dictGet fTG item.src_module_id = some srcG →
      dictGet fTG item.dst_module_id = some dstG → srcG ≠ dstG →
      (srcG, dstG, "dependency", item.label) ∈ (edgeStep fTF fTG acc item).seen) := by
  have stage1 : SeenInv (match dictGet fTF item.src_module_id,
        dictGet fTF item.dst_module_id with
      | some srcFile, some dstFile =>
        if srcFile ≠ dstFile then
          let key := (srcFile, dstFile, "dependency_file", item.label)
          if key ∉ acc.seen then
            { edges := acc.edges ++ [
                { id := Id.edge srcFile dstFile "dependency_file" item.label
                  src_id := srcFile
                  dst_id := dstFile
                  kind := "dependency_file"
                  label := item.label
                  evidence_ids := [item.evidence_id] }]
              seen := acc.seen ++ [key] }
          else acc
        else acc
      | _, _ => acc) ∧
      (∀ e ∈ acc.edges, e ∈ (match dictGet fTF item.src_module_id,
        dictGet fTF item.dst_module_id with
      | some srcFile, some dstFile =>
        if srcFile ≠ dstFile then
          let key := (srcFile, dstFile, "dependency_file", item.label)
          if key ∉ acc.seen then
            { edges := acc.edges ++ [
                { id := Id.edge srcFile dstFile "dependency_file" item.label
                  src_id := srcFile
                  dst_id := dstFile
                  kind := "dependency_file"
                  label := item.label
                  evidence_ids := [item.evidence_id] }]
              seen := acc.seen ++ [key] }
          else acc
        else acc
      | _, _ => acc : EdgeAcc).edges) ∧
      (∀ k ∈ acc.seen, k ∈ (match dictGet fTF item.src_module_id,
        dictGet fTF item.dst_module_id with
      | some srcFile, some dstFile =>
        if srcFile ≠ dstFile then
          let key := (srcFile, dstFile, "dependency_file", item.label)
          if key ∉ acc.seen then
            { edges := acc.edges ++ [
                { id := Id.edge srcFile dstFile "dependency_file" item.label
                  src_id := srcFile
                  dst_id := dstFile
                  kind := "dependency_file"
                  label := item.label
                  evidence_ids := [item.evidence_id] }]
              seen := acc.seen ++ [key] }
          else acc
        else acc
      | _, _ => acc : EdgeAcc).seen) := by
    rcases dictGet fTF item.src_module_id with _ | srcFile <;>
      rcases dictGet fTF item.dst_module_id with _ | dstFile <;> dsimp only
    · exact ⟨hinv, fun e he => he, fun k hk => hk⟩
    · exact ⟨hinv, fun e he => he, fun k hk => hk⟩
    · exact ⟨hinv, fun e he => he, fun k hk => hk⟩
    · split_ifs with hne hseen <;>
        first
          | exact ⟨SeenInv_append _ hinv, fun e he => List.mem_append_left _ he,
              fun k hk => List.mem_append_left _ hk⟩
          | exact ⟨hinv, fun e he => he, fun k hk => hk⟩
  obtain ⟨hinv1, hmonoE1, hmonoS1⟩ := stage1
  constructor
  · show SeenInv _
    unfold edgeStep
    rcases dictGet fTG item.src_module_id with _ | srcG <;>
      rcases dictGet fTG item.dst_module_id with _ | dstG <;> dsimp only
    · exact hinv1
    · exact hinv1
    · exact hinv1
    · split_ifs with hne hseen <;>
        first
          | exact SeenInv_append _ hinv1
          | exact hinv1
  refine ⟨?_, ?_, ?_⟩
  · intro e he
    show e ∈ (edgeStep fTF fTG acc item).edges
    unfold edgeStep
    rcases dictGet fTG item.src_module_id with _ | srcG <;>
      rcases dictGet fTG item.dst_module_id with _ | dstG <;> dsimp only
    · exact hmonoE1 e he
    · exact hmonoE1 e he
    · exact hmonoE1 e he
    · split_ifs with hne hseen <;>
        first
          | exact List.mem_append_left _ (hmonoE1 e he)
          | exact hmonoE1 e he
  · intro k hk
    show k ∈ (edgeStep fTF fTG acc item).seen
    unfold edgeStep
    rcases dictGet fTG item.src_module_id with _ | srcG <;>
      rcases dictGet fTG item.dst_module_id with _ | dstG <;> dsimp only
    · exact hmonoS1 k hk
    · exact hmonoS1 k hk
    · exact hmonoS1 k hk
    · split_ifs with hne hseen <;>
        first
          | exact List.mem_append_left _ (hmonoS1 k hk)
          | exact hmonoS1 k hk
  · intro srcG dstG hsrc hdst hne
    show _ ∈ (edgeStep fTF fTG acc item).seen
    unfold edgeStep
    rw [hsrc, hdst]
    simp only [ne_eq, hne, not_false_eq_true, if_true]
    split_ifs with hseen <;>
      first
        | exact List.mem_append_right _ (List.mem_singleton.mpr rfl)
        | simpa using hseen

lemma edgeFold_props (fTF fTG : List (String × Id)) (items : List EdgeFact)
    (acc : EdgeAcc) (hinv : SeenInv acc) :
    SeenInv (items.foldl (edgeStep fTF fTG) acc) ∧
    (∀ e ∈ acc.edges, e ∈ (items.foldl (edgeStep fTF fTG) acc).edges) ∧
    (∀ k ∈ acc.seen, k ∈ (items.foldl (edgeStep fTF fTG) acc).seen) := by
  induction items generalizing acc with
  | nil => exact ⟨hinv, fun e he => he, fun k hk => hk⟩
  | cons x rest ih =>
    obtain ⟨hinv', hE, hS, -⟩ := edgeStep_props fTF fTG acc x hinv
    obtain ⟨hinv'', hE', hS'⟩ := ih (edgeStep fTF fTG acc x) hinv'
    exact ⟨hinv'', fun e he => hE' e (hE e he), fun k hk => hS' k (hS k hk)⟩

lemma edgeFold_key (fTF fTG : List (String × Id)) (items : List EdgeFact)
    (acc : EdgeAcc) (hinv : SeenInv acc) (item : EdgeFact) (hmem : item ∈ items)
    (srcG dstG : Id) (hsrc : dictGet fTG item.src_module_id = some srcG)
    (hdst : dictGet fTG item.dst_module_id = some dstG) (hne : srcG ≠ dstG) :
    (srcG, dstG, "dependency", item.label) ∈ (items.foldl (edgeStep fTF fTG) acc).seen := by
  induction items generalizing acc with
  | nil => cases hmem
  | cons x rest ih =>
    obtain ⟨hinv', -, -, hadd⟩ := edgeStep_props fTF fTG acc x hinv
    rcases List.mem_cons.mp hmem with rfl | hrest
    · rw [List.foldl_cons]
      exact (edgeFold_props fTF fTG rest _ hinv').2.2 _ (hadd srcG dstG hsrc hdst hne)
    · rw [List.foldl_cons]
      exact ih _ hinv' hrest

lemma foldl_mono_edges {γ : Type} (step : EdgeAcc → γ → EdgeAcc)
    (hstep : ∀ a x, ∀ e ∈ a.edges, e ∈ (step a x).edges)
    (l : List γ) (a : EdgeAcc) : ∀ e ∈ a.edges, e ∈ (l.foldl step a).edges := by
  induction l generalizing a with
  | nil => exact fun e he => he
  | cons x rest ih => exact fun e he => ih (step a x) e (hstep a x e he)

lemma interfacePass_edges_mono (ports : List PortNode) (acc : EdgeAcc) :
    ∀ e ∈ acc.edges, e ∈ (interfacePass ports acc).edges := by
  unfold interfacePass
  refine foldl_mono_edges _ ?_ _ _
  intro aOuter entry
  refine foldl_mono_edges _ ?_ _ _
  intro aMid outPort
  refine foldl_mono_edges _ ?_ _ _
  intro a inPort e he
  dsimp only
  split_ifs <;> first | exact he | exact List.mem_append_left _ he

lemma buildArchitectureModel_edges_eq (provider : List ModuleDraft → EnrichmentResult)
    (snapshot : FactsSnapshot) (rules : RulesConfig) (generatedAt : String) :
    (buildArchitectureModel provider snapshot rules generatedAt).edges =
      (interfacePass
        (buildPorts snapshot.interfaces
          ((snapshot.modules.foldl (processFact rules) ⟨[], [], [], [], []⟩).factToFile))
        (snapshot.edges.foldl
          (edgeStep ((snapshot.modules.foldl (processFact rules)
              ⟨[], [], [], [], []⟩).factToFile)
            ((snapshot.modules.foldl (processFact rules)
              ⟨[], [], [], [], []⟩).factToGroup))
          ⟨[], []⟩)).edges := rfl

lemma builderRename_mem_of (mods : List ModuleNode) (names : List (Id × String))
    (n0 : ModuleNode) (h : n0 ∈ mods) :
    ∃ n ∈ builderRename mods names, n.id = n0.id ∧ n.level = n0.level ∧
      n.parent_id = n0.parent_id := by
  have hproj := builderRename_proj mods names
  have hmm : (n0.id, n0.level, n0.parent_id) ∈
      (builderRename mods names).map (fun n => (n.id, n.level, n.parent_id)) := by
    rw [hproj]
    exact List.mem_map_of_mem _ h
  obtain ⟨n, hn, heq⟩ := List.mem_map.mp hmm
  obtain ⟨h1, h2, h3⟩ : n.id = n0.id ∧ n.level = n0.level ∧ n.parent_id = n0.parent_id := by
    simpa [Prod.ext_iff] using heq
  exact ⟨n, hn, h1, h2, h3⟩

/-- C9: a module fact whose path has no directory component gets its layer
node (level 1) recorded as deepest-group ancestor, and an EdgeFact between
two such root-level facts in different layers rolls up into a model edge of
kind dependency between the two level-1 layer nodes. -/
theorem rootfile_layer_rollup_c9
    (provider : List ModuleDraft → EnrichmentResult) (snapshot : FactsSnapshot)
    (rules : RulesConfig) (generatedAt : String) (f1 f2 : ModuleFact) (e : EdgeFact)
    (hids : (snapshot.modules.map (fun x => x.id)).Nodup)
    (h1 : f1 ∈ snapshot.modules) (h2 : f2 ∈ snapshot.modules)
    (hg1 : groupPaths f1.path rules.module_depth = [])
    (hg2 : groupPaths f2.path rules.module_depth = [])
    (hlne : pickLayer f1.path rules ≠ pickLayer f2.path rules)
    (he : e ∈ snapshot.edges)
    (hes : e.src_module_id = f1.id) (hed : e.dst_module_id = f2.id) :
    dictGet ((snapshot.modules.foldl (processFact rules)
        ⟨[], [], [], [], []⟩).factToGroup) f1.id =
      some (Id.layer (pickLayer f1.path rules)) ∧
    (∃ n1 ∈ (buildArchitectureModel provider snapshot rules generatedAt).modules,
      n1.id = Id.layer (pickLayer f1.path rules) ∧ n1.level = 1) ∧
    (∃ n2 ∈ (buildArchitectureModel provider snapshot rules generatedAt).modules,
      n2.id = Id.layer (pickLayer f2.path rules) ∧ n2.level = 1) ∧
    (∃ ae ∈ (buildArchitectureModel provider snapshot rules generatedAt).edges,
      ae.kind = "dependency" ∧ ae.src_id = Id.layer (pickLayer f1.path rules) ∧
      ae.dst_id = Id.layer (pickLayer f2.path rules) ∧ ae.label = e.label) := by
  obtain ⟨hinvF, -⟩ :=
    buildFold_ok rules snapshot.modules ⟨[], [], [], [], []⟩ (initBuildSt_inv rules)
  obtain ⟨hpres1, hmap1⟩ :=
    buildFold_fact_maps rules snapshot.modules ⟨[], [], [], [], []⟩
      (initBuildSt_inv rules) f1 h1 hids
  obtain ⟨hpres2, hmap2⟩ :=
    buildFold_fact_maps rules snapshot.modules ⟨[], [], [], [], []⟩
      (initBuildSt_inv rules) f2 h2 hids
  have hlayerMem : ∀ (f : ModuleFact),
      (dictGet ((snapshot.modules.foldl (processFact rules)
        ⟨[], [], [], [], []⟩).layerNodes) (pickLayer f.path rules)).isSome →
      ∃ n ∈ (buildArchitectureModel provider snapshot rules generatedAt).modules,
        n.id = Id.layer (pickLayer f.path rules) ∧ n.level = 1 := by
    intro f hsome
    obtain ⟨v, hv⟩ := Option.isSome_iff_exists.mp hsome
    obtain ⟨hvid, hvlvl, -⟩ := hinvF.layerVal _ (dictGet_key_of_eq_some hv)
    have hvpre : v ∈ builderModulesPre rules snapshot.modules := by
      unfold builderModulesPre
      refine List.mem_cons_of_mem _ (List.mem_append_left _ (List.mem_append_right _ ?_))
      exact List.mem_map_of_mem _ (dictGet_key_of_eq_some hv)
    obtain ⟨names, hmods⟩ :=
      buildArchitectureModel_modules_eq provider snapshot rules generatedAt
    obtain ⟨n, hn, hnid, hnlvl, -⟩ := builderRename_mem_of _ names v hvpre
    exact ⟨n, by rw [hmods]; exact hn, by rw [hnid]; exact hvid, by rw [hnlvl]; exact hvlvl⟩
  have hinv0 : SeenInv ⟨[], []⟩ := by
    intro k
    simp [SeenInv]
  have hsrcG : dictGet ((snapshot.modules.foldl (processFact rules)
      ⟨[], [], [], [], []⟩).factToGroup) e.src_module_id =
      some (Id.layer (pickLayer f1.path rules)) := by
    rw [hes]
    exact hmap1 hg1
  have hdstG : dictGet ((snapshot.modules.foldl (processFact rules)
      ⟨[], [], [], [], []⟩).factToGroup) e.dst_module_id =
      some (Id.layer (pickLayer f2.path rules)) := by
    rw [hed]
    exact hmap2 hg2
  have hne : Id.layer (pickLayer f1.path rules) ≠ Id.layer (pickLayer f2.path rules) :=
    fun hc => hlne (Id.layer.inj hc)
  have hkey := edgeFold_key
    ((snapshot.modules.foldl (processFact rules) ⟨[], [], [], [], []⟩).factToFile)
    ((snapshot.modules.foldl (processFact rules) ⟨[], [], [], [], []⟩).factToGroup)
    snapshot.edges ⟨[], []⟩ hinv0 e he _ _ hsrcG hdstG hne
  have hinvRoll := (edgeFold_props
    ((snapshot.modules.foldl (processFact rules) ⟨[], [], [], [], []⟩).factToFile)
    ((snapshot.modules.foldl (processFact rules) ⟨[], [], [], [], []⟩).factToGroup)
    snapshot.edges ⟨[], []⟩ hinv0).1
  obtain ⟨ae, haeMem, haeKey⟩ := (hinvRoll _).mp hkey
  obtain ⟨k1, k2, k3, k4⟩ : ae.src_id = Id.layer (pickLayer f1.path rules) ∧
      ae.dst_id = Id.layer (pickLayer f2.path rules) ∧ ae.kind = "dependency" ∧
      ae.label = e.label := by
    simpa [edgeKeyOf, Prod.ext_iff] using haeKey
  refine ⟨hmap1 hg1, hlayerMem f1 hpres1, hlayerMem f2 hpres2, ae, ?_, k3, k1, k2, k4⟩
  rw [buildArchitectureModel_edges_eq]
  exact interfacePass_edges_mono _ _ ae haeMem

/-- Two repository-root files for the C9 instantiation. -/
def c9f1 : ModuleFact := ⟨"m1", "main", "main.py", "python"⟩

/-- Second root-level file. -/
def c9f2 : ModuleFact := ⟨"m2", "app.js", "app.js", "javascript"⟩

/-- An import edge between the two root-level files. -/
def c9e : EdgeFact := ⟨"e1", "m1", "m2", "dependency", "import app", "ev1", none⟩

/-- Rules that put the two root files into different layers. -/
def c9Rules : RulesConfig :=
  { system_name := "X", module_depth := 2,
    includeMatch := fun _ => true, excludeMatch := fun _ => false,
    layers := [⟨"Backend", fun p => pyStartswith p "main"⟩],
    default_layer := "Workspace", interfaces := [] }

/-- Snapshot with the two root-level files and their edge. -/
def c9Snapshot : FactsSnapshot :=
  { snapshot_id := "snap", commit_id := "c", repo_root := "r", created_at := "t",
    modules := [c9f1, c9f2],
    symbols := [], interfaces := [], edges := [c9e], evidences := [],
    metadata := ⟨⟨2, 2, 1, []⟩, ⟨1, 1, 0, 0⟩⟩ }

/-- Witness for C9 at the concrete snapshot. -/
theorem rootfile_layer_rollup_c9_witness :
    dictGet ((c9Snapshot.modules.foldl (processFact c9Rules)
        ⟨[], [], [], [], []⟩).factToGroup) c9f1.id =
      some (Id.layer (pickLayer c9f1.path c9Rules)) ∧
    (∃ n1 ∈ (buildArchitectureModel noopProvider c9Snapshot c9Rules "now").modules,
      n1.id = Id.layer (pickLayer c9f1.path c9Rules) ∧ n1.level = 1) ∧
    (∃ n2 ∈ (buildArchitectureModel noopProvider c9Snapshot c9Rules "now").modules,
      n2.id = Id.layer (pickLayer c9f2.path c9Rules) ∧ n2.level = 1) ∧
    (∃ ae ∈ (buildArchitectureModel noopProvider c9Snapshot c9Rules "now").edges,
      ae.kind = "dependency" ∧ ae.src_id = Id.layer (pickLayer c9f1.path c9Rules) ∧
      ae.dst_id = Id.layer (pickLayer c9f2.path c9Rules) ∧ ae.label = c9e.label) :=
  rootfile_layer_rollup_c9 noopProvider c9Snapshot c9Rules "now" c9f1 c9f2 c9e
    (by decide) (by decide) (by decide) (by decide) (by decide) (by decide) (by decide)
    (by decide) (by decide)

/-! ## Enrichment acceptance rules (claim C7)

build_architecture_model's merge/rename loops are embedded above
(mergeSummaries, builderRename); model.enrichment.enrich_architecture_model's
rename loop differs from the builder's in that it re-checks the returned
name for non-emptiness after stripping. -/

/-- enrichment.enrich_architecture_model's rename loop: a returned name is
applied only when non-empty after stripping (the isinstance(str) guard is
vacuous in the typed embedding); the node keeps its name otherwise. -/
def enrichRename (modules : List ModuleNode) (names : List (Id × String)) :
    List ModuleNode :=
  modules.map (fun node =>
    if pyStrip ((dictGet names node.id).getD "") ≠ "" then
      { id := node.id
        name := pyStrip ((dictGet names node.id).getD "")
        layer := node.layer
        level := node.level
        path := node.path
        parent_id := node.parent_id
        evidence_ids := node.evidence_ids }
    else node)

/-- The provider that returns an empty replacement name for the c9 file
node. -/
def c7Provider : List ModuleDraft → EnrichmentResult :=
  fun _ => ⟨[(Id.file "main.py", "")], []⟩

/-- C7 counterexample: build_architecture_model's rename pass applies ANY
name present in the provider result, the empty string included — the file
node main.py is renamed to "" although the claim says an empty returned name
keeps the original name. -/
theorem enrichment_name_c7_counterexample :
    ((buildArchitectureModel c7Provider c9Snapshot c9Rules "now").modules.filter
      (fun n => decide (n.id = Id.file "main.py"))).map (fun n => n.name) = [""] ∧
    ((buildArchitectureModel noopProvider c9Snapshot c9Rules "now").modules.filter
      (fun n => decide (n.id = Id.file "main.py"))).map (fun n => n.name) = ["main.py"] := by
  constructor <;> decide

/-- C7 (amended): a returned summary replaces the fallback only when
non-empty after stripping and containing a Chinese character, the provenance
flipping to "llm" exactly then; enrich_architecture_model applies a returned
name only when non-empty after stripping; build_architecture_model's rename
pass applies any name present in the mapping verbatim (empty included) and
keeps the original name only when the id is absent. -/
theorem enrichment_acceptance_c7 :
    (∀ (defaults enr : List (Id × String)),
      (∀ p ∈ enr, pyStrip p.2 = "" ∨ containsChinese (pyStrip p.2) = false) →
      mergeSummaries defaults enr =
        (defaults, defaults.map (fun p => (p.1, "fallback")))) ∧
    (∀ (defaults : List (Id × String)) (i : Id) (s : String),
      pyStrip s ≠ "" → containsChinese (pyStrip s) = true →
      mergeSummaries defaults [(i, s)] =
        (dictSet defaults i (pyStrip s),
          dictSet (defaults.map (fun p => (p.1, "fallback"))) i "llm")) ∧
    (∀ (nodes : List ModuleNode) (names : List (Id × String)) (n : ModuleNode),
      n ∈ enrichRename nodes names →
      ∃ n0 ∈ nodes, n.id = n0.id ∧ n.level = n0.level ∧ n.parent_id = n0.parent_id ∧
        n.path = n0.path ∧
        (n.name = n0.name ∨ (∃ s, dictGet names n0.id = some s ∧ n.name = pyStrip s ∧
          n.name ≠ ""))) ∧
    (∀ (nodes : List ModuleNode) (names : List (Id × String)) (n0 : ModuleNode) (s : String),
      n0 ∈ nodes → dictGet names n0.id = some s →
      ∃ n ∈ builderRename nodes names, n.id = n0.id ∧ n.name = s ∧ n.level = n0.level) ∧
    (∀ (nodes : List ModuleNode) (names : List (Id × String)) (n0 : ModuleNode),
      n0 ∈ nodes → dictGet names n0.id = none → n0 ∈ builderRename nodes names) := by
  have hstepRej : ∀ (acc : (List (Id × String)) × (List (Id × String))) (p : Id × String),
      (pyStrip p.2 = "" ∨ containsChinese (pyStrip p.2) = false) →
      mergeSummariesStep acc p = acc := by
    intro acc p h
    unfold mergeSummariesStep
    rcases h with hc | hc
    · rw [if_pos hc]
    · by_cases he : pyStrip p.2 = ""
      · rw [if_pos he]
      · rw [if_neg he, if_pos (by rw [hc]; exact Bool.false_ne_true)]
  have hstepAcc : ∀ (acc : (List (Id × String)) × (List (Id × String))) (p : Id × String),
      pyStrip p.2 ≠ "" → containsChinese (pyStrip p.2) = true →
      mergeSummariesStep acc p =
        (dictSet acc.1 p.1 (pyStrip p.2), dictSet acc.2 p.1 "llm") := by
    intro acc p hne hch
    unfold mergeSummariesStep
    rw [if_neg hne, if_neg (fun hcond => hcond hch)]
  refine ⟨?_, ?_, ?_, ?_, ?_⟩
  · intro defaults enr hrej
    unfold mergeSummaries
    generalize (defaults, defaults.map (fun p => (p.1, "fallback"))) = acc
    induction enr generalizing acc with
    | nil => rfl
    | cons p rest ih =>
      rw [List.foldl_cons, hstepRej acc p (hrej p (List.mem_cons_self p rest))]
      exact ih (fun q hq => hrej q (List.mem_cons_of_mem p hq)) acc
  · intro defaults i s hne hch
    unfold mergeSummaries
    rw [List.foldl_cons, hstepAcc _ (i, s) hne hch, List.foldl_nil]
  · intro nodes names n hn
    obtain ⟨n0, hn0, heq⟩ := List.mem_map.mp hn
    by_cases hcl : pyStrip ((dictGet names n0.id).getD "") ≠ ""
    · rw [if_pos hcl] at heq
      subst heq
      cases hd : dictGet names n0.id with
      | none =>
        rw [hd] at hcl
        exact absurd rfl hcl
      | some s =>
        refine ⟨n0, hn0, rfl, rfl, rfl, rfl, Or.inr ⟨s, hd, rfl, ?_⟩⟩
        rw [hd] at hcl
        exact hcl
    · rw [if_neg hcl] at heq
      subst heq
      exact ⟨n0, hn0, rfl, rfl, rfl, rfl, Or.inl rfl⟩
  · intro nodes names n0 s hmem hs
    unfold builderRename
    refine ⟨_, List.mem_map.mpr ⟨n0, hmem, rfl⟩, ?_⟩
    dsimp only
    rw [hs]
    exact ⟨rfl, rfl, rfl⟩
  · intro nodes names n0 hmem hs
    unfold builderRename
    refine List.mem_map.mpr ⟨n0, hmem, ?_⟩
    dsimp only
    rw [hs]

/-- A sample node for the C7 instantiations. -/
def c7Node : ModuleNode := ⟨Id.raw "n", "orig", "L", 1, "p", none, []⟩

/-- Witness for C7 at concrete inputs: a whitespace-only summary is
rejected, a Chinese summary is accepted, enrich_architecture_model applies a
stripped non-empty name, and build_architecture_model's rename applies even
the empty string (and keeps the node only when the id is absent). -/
theorem enrichment_acceptance_c7_witness :
    (∀ p ∈ [(Id.raw "a", " ")], pyStrip p.2 = "" ∨ containsChinese (pyStrip p.2) = false) ∧
    mergeSummaries [(Id.raw "a", "默认")] [(Id.raw "a", " ")] =
      ([(Id.raw "a", "默认")], [(Id.raw "a", "默认")].map (fun p => (p.1, "fallback"))) ∧
    mergeSummaries [] [(Id.raw "a", "模块")] =
      (dictSet [] (Id.raw "a") (pyStrip "模块"),
        dictSet (([] : List (Id × String)).map (fun p => (p.1, "fallback")))
          (Id.raw "a") "llm") ∧
    (∃ n0 ∈ [c7Node],
      (⟨Id.raw "n", "新名", "L", 1, "p", none, []⟩ : ModuleNode).id = n0.id ∧
      (⟨Id.raw "n", "新名", "L", 1, "p", none, []⟩ : ModuleNode).level = n0.level ∧
      (⟨Id.raw "n", "新名", "L", 1, "p", none, []⟩ : ModuleNode).parent_id = n0.parent_id ∧
      (⟨Id.raw "n", "新名", "L", 1, "p", none, []⟩ : ModuleNode).path = n0.path ∧
      ((⟨Id.raw "n", "新名", "L", 1, "p", none, []⟩ : ModuleNode).name = n0.name ∨
        (∃ s, dictGet [(Id.raw "n", " 新名 ")] n0.id = some s ∧
          (⟨Id.raw "n", "新名", "L", 1, "p", none, []⟩ : ModuleNode).name = pyStrip s ∧
          (⟨Id.raw "n", "新名", "L", 1, "p", none, []⟩ : ModuleNode).name ≠ ""))) ∧
    (∃ n ∈ builderRename [c7Node] [(Id.raw "n", "")],
      n.id = c7Node.id ∧ n.name = "" ∧ n.level = c7Node.level) ∧
    c7Node ∈ builderRename [c7Node] [] :=
  ⟨by decide,
    enrichment_acceptance_c7.1 [(Id.raw "a", "默认")] [(Id.raw "a", " ")] (by decide),
    enrichment_acceptance_c7.2.1 [] (Id.raw "a") "模块" (by decide) (by decide),
    enrichment_acceptance_c7.2.2.1 [c7Node] [(Id.raw "n", " 新名 ")]
      ⟨Id.raw "n", "新名", "L", 1, "p", none, []⟩ (by decide),
    enrichment_acceptance_c7.2.2.2.1 [c7Node] [(Id.raw "n", "")] c7Node "" (by decide)
      (by decide),
    enrichment_acceptance_c7.2.2.2.2 [c7Node] [] c7Node (by decide) (by decide)⟩

/-! ## Interface matching pass, corrected behaviour (claim C3) -/

section BagLemmas

variable {α β : Type} [DecidableEq α]

lemma dictGet_mapBag (d : List (α × List β)) (k : α) (v : β) :
    dictGet (d.map (fun p => if p.1 = k then (p.1, p.2 ++ [v]) else p)) k =
      (dictGet d k).map (fun l => l ++ [v]) := by
  induction d with
  | nil => rfl
  | cons q rest ih =>
    by_cases hq : q.1 = k
    · rw [List.map_cons, if_pos hq, dictGet_cons_self (show (q.1, q.2 ++ [v]).1 = k from hq),
        dictGet_cons_self hq]
      rfl
    · rw [List.map_cons, if_neg hq, dictGet_cons_ne hq, dictGet_cons_ne hq, ih]

lemma dictGet_mapBag_ne (d : List (α × List β)) (k k' : α) (v : β) (h : k' ≠ k) :
    dictGet (d.map (fun p => if p.1 = k then (p.1, p.2 ++ [v]) else p)) k' =
      dictGet d k' := by
  induction d with
  | nil => rfl
  | cons q rest ih =>
    by_cases hq : q.1 = k
    · rw [List.map_cons, if_pos hq,
        dictGet_cons_ne (show (q.1, q.2 ++ [v]).1 ≠ k' from hq ▸ fun hc => h hc.symm),
        dictGet_cons_ne (show q.1 ≠ k' from hq ▸ fun hc => h hc.symm)]
      exact ih
    · rw [List.map_cons, if_neg hq]
      by_cases hq' : q.1 = k'
      · rw [dictGet_cons_self hq', dictGet_cons_self hq']
      · rw [dictGet_cons_ne hq', dictGet_cons_ne hq']
        exact ih

lemma dictGet_bagAppend_self {d : List (α × List β)} {k : α} {v : β} :
    dictGet (bagAppend d k v) k = some ((dictGet d k).getD [] ++ [v]) := by
  unfold bagAppend
  split_ifs with h
  · simp only [List.any_eq_true, decide_eq_true_eq] at h
    obtain ⟨p, hp, hk⟩ := h
    obtain ⟨l0, hl0⟩ := Option.isSome_iff_exists.mp (dictGet_isSome_iff.mpr ⟨p, hp, hk⟩)
    rw [dictGet_mapBag, hl0]
    rfl
  · have hnone : dictGet d k = none := by
      rw [dictGet_eq_none_iff]
      intro p hp hk
      exact h (List.any_eq_true.mpr ⟨p, hp, by simp [hk]⟩)
    rw [dictGet_append_singleton_of_none hnone, hnone]
    rfl

lemma dictGet_bagAppend_ne {d : List (α × List β)} {k k' : α} {v : β} (h : k' ≠ k) :
    dictGet (bagAppend d k v) k' = dictGet d k' := by
  unfold bagAppend
  split_ifs with hmem
  · exact dictGet_mapBag_ne d k k' v h
  · exact dictGet_append_singleton_ne h

end BagLemmas

/-- A port is filed in its protocol's bucket of the given defaultdict. -/
def inBucket (d : List (String × List PortNode)) (p : PortNode) : Prop :=
  ∃ l, dictGet d p.protocol = some l ∧ p ∈ l

lemma inBucket_bagAppend_mono {d : List (String × List PortNode)} {k : String}
    {v p : PortNode} (h : inBucket d p) : inBucket (bagAppend d k v) p := by
  obtain ⟨l, hl, hp⟩ := h
  by_cases hk : p.protocol = k
  · subst hk
    refine ⟨l ++ [v], ?_, List.mem_append_left _ hp⟩
    rw [dictGet_bagAppend_self, hl]
    rfl
  · exact ⟨l, by rw [dictGet_bagAppend_ne hk]; exact hl, hp⟩

lemma inBucket_bagAppend_self {d : List (String × List PortNode)} (p : PortNode) :
    inBucket (bagAppend d p.protocol p) p :=
  ⟨(dictGet d p.protocol).getD [] ++ [p], dictGet_bagAppend_self,
    List.mem_append_right _ (List.mem_singleton.mpr rfl)⟩

lemma portsByProtocol_buckets (ports : List PortNode) :
    (∀ p ∈ ports, pyLower p.direction = "in" → inBucket (portsByProtocol ports).1 p) ∧
    (∀ p ∈ ports, pyLower p.direction = "out" → inBucket (portsByProtocol ports).2 p) := by
  unfold portsByProtocol
  suffices h : ∀ (l : List PortNode)
      (acc : (List (String × List PortNode)) × (List (String × List PortNode))),
      (∀ p, inBucket acc.1 p → inBucket (l.foldl (fun acc port =>
        if pyLower port.direction = "in" then (bagAppend acc.1 port.protocol port, acc.2)
        else if pyLower port.direction = "out" then
          (acc.1, bagAppend acc.2 port.protocol port)
        else acc) acc).1 p) ∧
      (∀ p, inBucket acc.2 p → inBucket (l.foldl (fun acc port =>
        if pyLower port.direction = "in" then (bagAppend acc.1 port.protocol port, acc.2)
        else if pyLower port.direction = "out" then
          (acc.1, bagAppend acc.2 port.protocol port)
        else acc) acc).2 p) ∧
      (∀ p ∈ l, pyLower p.direction = "in" → inBucket (l.foldl (fun acc port =>
        if pyLower port.direction = "in" then (bagAppend acc.1 port.protocol port, acc.2)
        else if pyLower port.direction = "out" then
          (acc.1, bagAppend acc.2 port.protocol port)
        else acc) acc).1 p) ∧
      (∀ p ∈ l, pyLower p.direction = "out" → inBucket (l.foldl (fun acc port =>
        if pyLower port.direction = "in" then (bagAppend acc.1 port.protocol port, acc.2)
        else if pyLower port.direction = "out" then
          (acc.1, bagAppend acc.2 port.protocol port)
        else acc) acc).2 p) by
    exact ⟨(h ports ([], [])).2.2.1, (h ports ([], [])).2.2.2⟩
  intro l
  induction l with
  | nil => exact fun acc => ⟨fun p hp => hp, fun p hp => hp, by simp, by simp⟩
  | cons x rest ih =>
    intro acc
    simp only [List.foldl_cons]
    by_cases hxin : pyLower x.direction = "in"
    · rw [if_pos hxin]
      obtain ⟨m1, m2, c1, c2⟩ := ih (bagAppend acc.1 x.protocol x, acc.2)
      refine ⟨fun p hp => m1 p (inBucket_bagAppend_mono hp), fun p hp => m2 p hp, ?_, ?_⟩
      · intro p hp hdir
        rcases List.mem_cons.mp hp with rfl | hr
        · exact m1 p (inBucket_bagAppend_self p)
        · exact c1 p hr hdir
      · intro p hp hdir
        rcases List.mem_cons.mp hp with rfl | hr
        · exact absurd (hxin.symm.trans hdir) (by decide)
        · exact c2 p hr hdir
    · by_cases hxout : pyLower x.direction = "out"
      · rw [if_neg hxin, if_pos hxout]
        obtain ⟨m1, m2, c1, c2⟩ := ih (acc.1, bagAppend acc.2 x.protocol x)
        refine ⟨fun p hp => m1 p hp, fun p hp => m2 p (inBucket_bagAppend_mono hp), ?_, ?_⟩
        · intro p hp hdir
          rcases List.mem_cons.mp hp with rfl | hr
          · exact absurd (hxout.symm.trans hdir) (by decide)
          · exact c1 p hr hdir
        · intro p hp hdir
          rcases List.mem_cons.mp hp with rfl | hr
          · exact m2 p (inBucket_bagAppend_self p)
          · exact c2 p hr hdir
      · rw [if_neg hxin, if_neg hxout]
        obtain ⟨m1, m2, c1, c2⟩ := ih acc
        refine ⟨m1, m2, ?_, ?_⟩
        · intro p hp hdir
          rcases List.mem_cons.mp hp with rfl | hr
          · exact absurd hdir hxin
          · exact c1 p hr hdir
        · intro p hp hdir
          rcases List.mem_cons.mp hp with rfl | hr
          · exact absurd hdir hxout
          · exact c2 p hr hdir

/-- Value-soundness of a direction bucket: every filed port comes from the
port list, has the bucket's direction, and is keyed by its own protocol. -/
def bucketSound (ports : List PortNode) (dir : String)
    (d : List (String × List PortNode)) : Prop :=
  ∀ entry ∈ d, ∀ p ∈ entry.2, p ∈ ports ∧ pyLower p.direction = dir ∧ p.protocol = entry.1

lemma bagAppend_mem_split {α β : Type} [DecidableEq α] {d : List (α × List β)} {k : α}
    {v : β} {q : α × List β} (hq : q ∈ bagAppend d k v) :
    ∀ p ∈ q.2, (∃ q0 ∈ d, q0.1 = q.1 ∧ p ∈ q0.2) ∨ (p = v ∧ q.1 = k) := by
  intro p hp
  unfold bagAppend at hq
  split_ifs at hq with h
  · obtain ⟨q0, hq0, heq⟩ := List.mem_map.mp hq
    by_cases hk : q0.1 = k
    · rw [if_pos hk] at heq
      subst heq
      rcases List.mem_append.mp hp with hold | hnew
      · exact Or.inl ⟨q0, hq0, hk.symm ▸ rfl, hold⟩
      · exact Or.inr ⟨List.mem_singleton.mp hnew, hk⟩
    · rw [if_neg hk] at heq
      subst heq
      exact Or.inl ⟨q0, hq0, rfl, hp⟩
  · rcases List.mem_append.mp hq with hold | hnew
    · exact Or.inl ⟨q, hold, rfl, hp⟩
    · rw [List.mem_singleton] at hnew
      subst hnew
      exact Or.inr ⟨List.mem_singleton.mp hp, rfl⟩

lemma bagAppend_sound {ports : List PortNode} {dir : String}
    {d : List (String × List PortNode)} {k : String} {v : PortNode}
    (h : bucketSound ports dir d) (hv : v ∈ ports) (hdir : pyLower v.direction = dir)
    (hk : v.protocol = k) : bucketSound ports dir (bagAppend d k v) := by
  intro entry hentry p hp
  rcases bagAppend_mem_split hentry p hp with ⟨q0, hq0, hkey, hp0⟩ | ⟨rfl, hkey⟩
  · obtain ⟨a, b, c⟩ := h q0 hq0 p hp0
    exact ⟨a, b, hkey ▸ c⟩
  · exact ⟨hv, hdir, hkey ▸ hk⟩

lemma portsByProtocol_sound (ports : List PortNode) :
    bucketSound ports "in" (portsByProtocol ports).1 ∧
    bucketSound ports "out" (portsByProtocol ports).2 := by
  unfold portsByProtocol
  suffices h : ∀ (l : List PortNode)
      (acc : (List (String × List PortNode)) × (List (String × List PortNode))),
      (∀ p ∈ l, p ∈ ports) → bucketSound ports "in" acc.1 → bucketSound ports "out" acc.2 →
      bucketSound ports "in" (l.foldl (fun acc port =>
        if pyLower port.direction = "in" then (bagAppend acc.1 port.protocol port, acc.2)
        else if pyLower port.direction = "out" then
          (acc.1, bagAppend acc.2 port.protocol port)
        else acc) acc).1 ∧
      bucketSound ports "out" (l.foldl (fun acc port =>
        if pyLower port.direction = "in" then (bagAppend acc.1 port.protocol port, acc.2)
        else if pyLower port.direction = "out" then
          (acc.1, bagAppend acc.2 port.protocol port)
        else acc) acc).2 by
    exact h ports ([], []) (fun p hp => hp) (fun entry h => absurd h (List.not_mem_nil entry))
      (fun entry h => absurd h (List.not_mem_nil entry))
  intro l
  induction l with
  | nil => exact fun acc _ h1 h2 => ⟨h1, h2⟩
  | cons x rest ih =>
    intro acc hsub h1 h2
    simp only [List.foldl_cons]
    by_cases hxin : pyLower x.direction = "in"
    · rw [if_pos hxin]
      exact ih _ (fun p hp => hsub p (List.mem_cons_of_mem x hp))
        (bagAppend_sound h1 (hsub x (List.mem_cons_self x rest)) hxin rfl) h2
    · by_cases hxout : pyLower x.direction = "out"
      · rw [if_neg hxin, if_pos hxout]
        exact ih _ (fun p hp => hsub p (List.mem_cons_of_mem x hp)) h1
          (bagAppend_sound h2 (hsub x (List.mem_cons_self x rest)) hxout rfl)
      · rw [if_neg hxin, if_neg hxout]
        exact ih _ (fun p hp => hsub p (List.mem_cons_of_mem x hp)) h1 h2

/-- What the matching loops actually require of an emitted interface edge. -/
def interfaceEdgeSpec (ports : List PortNode) (e : ArchitectureEdge) : Prop :=
  ∃ op ∈ ports, ∃ ip ∈ ports,
    pyLower op.direction = "out" ∧ pyLower ip.direction = "in" ∧
    ip.protocol = op.protocol ∧ op.module_id ≠ ip.module_id ∧
    isRouteMatch (routeKey op.name) (routeKey ip.name) = true ∧
    e.kind = "interface" ∧ e.src_id = op.module_id ∧ e.dst_id = ip.module_id ∧
    e.label = op.protocol ++ " " ++ routeKey op.name

lemma interfacePass_sound (ports : List PortNode) (acc0 : EdgeAcc) :
    ∀ e ∈ (interfacePass ports acc0).edges,
      e ∈ acc0.edges ∨ interfaceEdgeSpec ports e := by
  obtain ⟨hinS, houtS⟩ := portsByProtocol_sound ports
  unfold interfacePass
  refine List.foldlRecOn
    (motive := fun (acc : EdgeAcc) => ∀ e ∈ acc.edges, e ∈ acc0.edges ∨ interfaceEdgeSpec ports e)
    _ _ _ (fun e he => Or.inl he) ?_
  intro b hb entry hentry
  try dsimp only
  refine List.foldlRecOn
    (motive := fun (acc : EdgeAcc) => ∀ e ∈ acc.edges, e ∈ acc0.edges ∨ interfaceEdgeSpec ports e)
    _ _ _ hb ?_
  intro b2 hb2 outPort hop
  try dsimp only
  refine List.foldlRecOn
    (motive := fun (acc : EdgeAcc) => ∀ e ∈ acc.edges, e ∈ acc0.edges ∨ interfaceEdgeSpec ports e)
    _ _ _ hb2 ?_
  intro b3 hb3 inPort hip
  intro e he
  try dsimp only at he
  by_cases h1 : outPort.module_id = inPort.module_id
  · rw [if_pos h1] at he
    exact hb3 e he
  · rw [if_neg h1] at he
    by_cases h2 : ¬ (isRouteMatch (routeKey outPort.name) (routeKey inPort.name) = true)
    · rw [if_pos h2] at he
      exact hb3 e he
    · rw [if_neg h2] at he
      by_cases h3 : (outPort.module_id, inPort.module_id, "interface",
          entry.1 ++ " " ++ routeKey outPort.name) ∈ b3.seen
      · rw [if_pos h3] at he
        exact hb3 e he
      · rw [if_neg h3] at he
        rcases List.mem_append.mp he with hold | hnew
        · exact hb3 e hold
        · right
          rw [List.mem_singleton] at hnew
          subst hnew
          obtain ⟨hopP, hopDir, hopProto⟩ := houtS entry hentry outPort hop
          have hipProps : inPort ∈ ports ∧ pyLower inPort.direction = "in" ∧
              inPort.protocol = entry.1 := by
            cases hd : dictGet (portsByProtocol ports).1 entry.1 with
            | none =>
              rw [hd] at hip
              cases hip
            | some l =>
              rw [hd] at hip
              exact hinS (entry.1, l) (dictGet_key_of_eq_some hd) inPort hip
          refine ⟨outPort, hopP, inPort, hipProps.1, hopDir, hipProps.2.1, ?_,
            h1, by simpa using h2, rfl, rfl, rfl, ?_⟩
          · rw [hipProps.2.2, hopProto]
          · rw [hopProto]

lemma foldl_pres {δ γ : Type} (P : δ → Prop) (step : δ → γ → δ)
    (hpres : ∀ a y, P a → P (step a y)) :
    ∀ (l : List γ) (a), P a → P (l.foldl step a) := by
  intro l
  induction l with
  | nil => exact fun a h => h
  | cons y rest ih => exact fun a h => ih (step a y) (hpres a y h)

lemma foldl_reach {δ γ : Type} (P : δ → Prop) (step : δ → γ → δ) (x : γ)
    (hpres : ∀ a y, P a → P (step a y)) (hest : ∀ a, P (step a x)) :
    ∀ (l : List γ), x ∈ l → ∀ a, P (l.foldl step a) := by
  intro l
  induction l with
  | nil => intro hx; cases hx
  | cons y rest ih =>
    intro hx a
    rcases List.mem_cons.mp hx with rfl | hr
    · rw [List.foldl_cons]
      exact foldl_pres P step hpres rest _ (hest a)
    · rw [List.foldl_cons]
      exact ih hr (step a y)

lemma interfacePass_dedup (ports : List PortNode) (acc0 : EdgeAcc)
    (h0 : SeenInv acc0) (hnd : ((acc0.edges.map edgeKeyOf)).Nodup) :
    SeenInv (interfacePass ports acc0) ∧
    (((interfacePass ports acc0).edges.map edgeKeyOf)).Nodup := by
  unfold interfacePass
  refine List.foldlRecOn
    (motive := fun (acc : EdgeAcc) => SeenInv acc ∧ ((acc.edges.map edgeKeyOf)).Nodup)
    _ _ _ ⟨h0, hnd⟩ ?_
  intro b hb entry hentry
  try dsimp only
  refine List.foldlRecOn
    (motive := fun (acc : EdgeAcc) => SeenInv acc ∧ ((acc.edges.map edgeKeyOf)).Nodup)
    _ _ _ hb ?_
  intro b2 hb2 outPort hop
  try dsimp only
  refine List.foldlRecOn
    (motive := fun (acc : EdgeAcc) => SeenInv acc ∧ ((acc.edges.map edgeKeyOf)).Nodup)
    _ _ _ hb2 ?_
  intro b3 hb3 inPort hip
  try dsimp only
  by_cases h1 : outPort.module_id = inPort.module_id
  · rw [if_pos h1]
    exact hb3
  · rw [if_neg h1]
    by_cases h2 : ¬ (isRouteMatch (routeKey outPort.name) (routeKey inPort.name) = true)
    · rw [if_pos h2]
      exact hb3
    · rw [if_neg h2]
      by_cases h3 : (outPort.module_id, inPort.module_id, "interface",
          entry.1 ++ " " ++ routeKey outPort.name) ∈ b3.seen
      · rw [if_pos h3]
        exact hb3
      · rw [if_neg h3]
        refine ⟨SeenInv_append _ hb3.1, ?_⟩
        show ((b3.edges ++ [_]).map edgeKeyOf).Nodup
        rw [List.map_append, List.nodup_append]
        refine ⟨hb3.2, List.nodup_singleton _, ?_⟩
        intro a ha hb'
        simp only [List.map_cons, List.map_nil, List.mem_singleton] at hb'
        subst hb'
        obtain ⟨e', he', hk⟩ := List.mem_map.mp ha
        exact h3 ((hb3.1 _).mpr ⟨e', he', hk⟩)

lemma interfacePass_seen_mono (ports : List PortNode) (acc0 : EdgeAcc) :
    ∀ k ∈ acc0.seen, k ∈ (interfacePass ports acc0).seen := by
  intro k hk
  unfold interfacePass
  refine foldl_pres (fun (acc : EdgeAcc) => k ∈ acc.seen) _ ?_ _ _ hk
  intro a entry ha
  try dsimp only
  refine foldl_pres (fun (acc : EdgeAcc) => k ∈ acc.seen) _ ?_ _ _ ha
  intro a2 outPort ha2
  try dsimp only
  refine foldl_pres (fun (acc : EdgeAcc) => k ∈ acc.seen) _ ?_ _ _ ha2
  intro a3 inPort ha3
  try dsimp only
  split_ifs <;> first | exact ha3 | exact List.mem_append_left _ ha3

lemma interfacePass_complete (ports : List PortNode) (acc0 : EdgeAcc)
    (op ip : PortNode) (hop : op ∈ ports) (hip : ip ∈ ports)
    (hdirO : pyLower op.direction = "out") (hdirI : pyLower ip.direction = "in")
    (hproto : ip.protocol = op.protocol) (hmod : op.module_id ≠ ip.module_id)
    (hmatch : isRouteMatch (routeKey op.name) (routeKey ip.name) = true) :
    (op.module_id, ip.module_id, "interface", op.protocol ++ " " ++ routeKey op.name)
      ∈ (interfacePass ports acc0).seen := by
  obtain ⟨lO, hlO, hopO⟩ := (portsByProtocol_buckets ports).2 op hop hdirO
  obtain ⟨lI, hlI, hipI⟩ := (portsByProtocol_buckets ports).1 ip hip hdirI
  have hlI' : dictGet (portsByProtocol ports).1 op.protocol = some lI := by
    rw [← hproto]
    exact hlI
  unfold interfacePass
  refine foldl_reach
    (fun (acc : EdgeAcc) =>
      (op.module_id, ip.module_id, "interface",
        op.protocol ++ " " ++ routeKey op.name) ∈ acc.seen)
    _ (op.protocol, lO) ?_ ?_ _ (dictGet_key_of_eq_some hlO) acc0
  · -- any outer step preserves seen membership
    intro a entry ha
    try dsimp only
    refine foldl_pres (fun (acc : EdgeAcc) =>
      (op.module_id, ip.module_id, "interface",
        op.protocol ++ " " ++ routeKey op.name) ∈ acc.seen) _ ?_ _ _ ha
    intro a2 outPort ha2
    try dsimp only
    refine foldl_pres (fun (acc : EdgeAcc) =>
      (op.module_id, ip.module_id, "interface",
        op.protocol ++ " " ++ routeKey op.name) ∈ acc.seen) _ ?_ _ _ ha2
    intro a3 inPort ha3
    try dsimp only
    split_ifs <;> first | exact ha3 | exact List.mem_append_left _ ha3
  · -- the step at the out bucket of op's protocol establishes the key
    intro a
    try dsimp only
    refine foldl_reach (fun (acc : EdgeAcc) =>
      (op.module_id, ip.module_id, "interface",
        op.protocol ++ " " ++ routeKey op.name) ∈ acc.seen) _ op ?_ ?_ _ hopO a
    · intro a2 outPort ha2
      try dsimp only
      refine foldl_pres (fun (acc : EdgeAcc) =>
        (op.module_id, ip.module_id, "interface",
          op.protocol ++ " " ++ routeKey op.name) ∈ acc.seen) _ ?_ _ _ ha2
      intro a3 inPort ha3
      try dsimp only
      split_ifs <;> first | exact ha3 | exact List.mem_append_left _ ha3
    · intro a2
      try dsimp only
      rw [hlI']
      refine foldl_reach (fun (acc : EdgeAcc) =>
        (op.module_id, ip.module_id, "interface",
          op.protocol ++ " " ++ routeKey op.name) ∈ acc.seen) _ ip ?_ ?_ _ hipI a2
      · intro a3 inPort ha3
        try dsimp only
        split_ifs <;> first | exact ha3 | exact List.mem_append_left _ ha3
      · intro a3
        try dsimp only
        rw [if_neg hmod, if_neg (fun hcond => hcond hmatch)]
        split_ifs with hseen
        · exact hseen
        · exact List.mem_append_right _ (List.mem_singleton.mpr rfl)

lemma interfacePass_seenInv (ports : List PortNode) (acc0 : EdgeAcc)
    (h0 : SeenInv acc0) : SeenInv (interfacePass ports acc0) := by
  unfold interfacePass
  refine List.foldlRecOn
    (motive := fun (acc : EdgeAcc) => SeenInv acc) _ _ _ h0 ?_
  intro b hb entry hentry
  try dsimp only
  refine List.foldlRecOn
    (motive := fun (acc : EdgeAcc) => SeenInv acc) _ _ _ hb ?_
  intro b2 hb2 outPort hop
  try dsimp only
  refine List.foldlRecOn
    (motive := fun (acc : EdgeAcc) => SeenInv acc) _ _ _ hb2 ?_
  intro b3 hb3 inPort hip
  try dsimp only
  split_ifs <;> first | exact hb3 | exact SeenInv_append _ hb3

/-- C3 (amended): the route key is the text after the first space (dropping
the method token; the whole name when no space is present), stripped and
case folded, with the query string retained; a match is declared exactly
when the keys are equal, one is a prefix of the other, or the keys agree
after dropping their "?query" suffixes; every emitted interface edge comes
from an outbound port matched against an inbound port of the same protocol
on a different file node and carries kind "interface", src/dst equal to the
two file nodes, and label protocol + " " + source key; emitted edges are
deduplicated by (src, dst, kind, label); and every matching pair yields an
edge with its key. -/
theorem interface_matching_c3 :
    (∀ s t, isRouteMatch s t = true ↔
      (s = t ∨ pyStartswith s t = true ∨ pyStartswith t s = true ∨
        beforeQuery s = beforeQuery t)) ∧
    (∀ name, routeKey name =
      if pyContainsChar name ' ' = true then pyLower (pyStrip (afterFirstSpace name))
      else pyLower (pyStrip name)) ∧
    (∀ (ports : List PortNode) (acc0 : EdgeAcc), ∀ e ∈ (interfacePass ports acc0).edges,
      e ∈ acc0.edges ∨ interfaceEdgeSpec ports e) ∧
    (∀ (ports : List PortNode) (acc0 : EdgeAcc), SeenInv acc0 →
      ((acc0.edges.map edgeKeyOf)).Nodup →
      (((interfacePass ports acc0).edges.map edgeKeyOf)).Nodup) ∧
    (∀ (ports : List PortNode) (acc0 : EdgeAcc) (op ip : PortNode),
      op ∈ ports → ip ∈ ports →
      pyLower op.direction = "out" → pyLower ip.direction = "in" →
      ip.protocol = op.protocol → op.module_id ≠ ip.module_id →
      isRouteMatch (routeKey op.name) (routeKey ip.name) = true →
      SeenInv acc0 →
      ∃ e ∈ (interfacePass ports acc0).edges,
        edgeKeyOf e = (op.module_id, ip.module_id, "interface",
          op.protocol ++ " " ++ routeKey op.name)) := by
  refine ⟨?_, fun name => rfl, interfacePass_sound, ?_, ?_⟩
  · intro s t
    unfold isRouteMatch
    split_ifs with h1 h2
    · simp [h1]
    · constructor
      · intro _
        rcases h2 with h | h
        · exact Or.inr (Or.inl h)
        · exact Or.inr (Or.inr (Or.inl h))
      · intro _
        rfl
    · constructor
      · intro h
        exact Or.inr (Or.inr (Or.inr (by simpa using h)))
      · rintro (hc | hc | hc | hc)
        · exact absurd hc h1
        · exact absurd (Or.inl hc) h2
        · exact absurd (Or.inr hc) h2
        · exact decide_eq_true hc
  · intro ports acc0 h0 hnd
    exact (interfacePass_dedup ports acc0 h0 hnd).2
  · intro ports acc0 op ip hop hip hdO hdI hpr hmod hmatch h0
    have hkey := interfacePass_complete ports acc0 op ip hop hip hdO hdI hpr hmod hmatch
    have hseenInv := interfacePass_seenInv ports acc0 h0
    exact (hseenInv _).mp hkey

/-- Concrete outbound port exercising the C3 theorem. -/
def c3OutPort : PortNode :=
  { id := "p1"
    module_id := Id.file "a.py"
    name := "HTTP /api/users"
    protocol := "HTTP"
    direction := "out"
    details := ""
    evidence_ids := [] }

/-- Concrete inbound port exercising the C3 theorem. -/
def c3InPort : PortNode :=
  { id := "p2"
    module_id := Id.file "b.py"
    name := "GET /api/users"
    protocol := "HTTP"
    direction := "in"
    details := ""
    evidence_ids := [] }

/-- The single interface edge the pass emits for `c3OutPort`/`c3InPort`. -/
def c3Edge : ArchitectureEdge :=
  { id := Id.edge (Id.file "a.py") (Id.file "b.py") "interface" "HTTP /api/users"
    src_id := Id.file "a.py"
    dst_id := Id.file "b.py"
    kind := "interface"
    label := "HTTP /api/users"
    evidence_ids := [] }

/-- Witness for C3 at a concrete matching pair of ports. -/
theorem interface_matching_c3_witness :
    (isRouteMatch "/a?x" "/a?y" = true ↔
      ("/a?x" = "/a?y" ∨ pyStartswith "/a?x" "/a?y" = true ∨
        pyStartswith "/a?y" "/a?x" = true ∨
        beforeQuery "/a?x" = beforeQuery "/a?y")) ∧
    (c3Edge ∈ (⟨[], []⟩ : EdgeAcc).edges ∨
      interfaceEdgeSpec [c3OutPort, c3InPort] c3Edge) ∧
    (((interfacePass [c3OutPort, c3InPort] ⟨[], []⟩).edges.map edgeKeyOf)).Nodup ∧
    (∃ e ∈ (interfacePass [c3OutPort, c3InPort] ⟨[], []⟩).edges,
      edgeKeyOf e = (c3OutPort.module_id, c3InPort.module_id, "interface",
        c3OutPort.protocol ++ " " ++ routeKey c3OutPort.name)) :=
  ⟨interface_matching_c3.1 "/a?x" "/a?y",
    interface_matching_c3.2.2.1 [c3OutPort, c3InPort] ⟨[], []⟩ c3Edge (by decide),
    interface_matching_c3.2.2.2.1 [c3OutPort, c3InPort] ⟨[], []⟩
      (by intro k; simp [edgeKeyOf]) (by simp),
    interface_matching_c3.2.2.2.2 [c3OutPort, c3InPort] ⟨[], []⟩ c3OutPort c3InPort
      (by decide) (by decide) (by decide) (by decide) (by decide) (by decide)
      (by decide) (by intro k; simp [edgeKeyOf])⟩

/-! ## Extraction engine (archsync/analyzers/engine.py)

The repository file tree is carried as an association list from a
posix-relative path to the outcome of reading that file; `pathlib` path
arithmetic, `sorted`, and the deduplication passes are embedded below, while
the external collaborators (hashlib.sha1 via stable_id, the compiled
regexes, the per-language analyzer bodies) are threaded as function
parameters. -/

/-- pathlib.PurePath.name: the final path component. -/
def lastComponent (p : String) : String :=
  (pySplitChar p '/').getLast?.getD ""

/-- The index of the last occurrence of a character, if any. -/
def lastIdxOfChar (c : Char) (l : List Char) : Option Nat :=
  l.enum.foldl (fun acc q => if q.2 = c then some q.1 else acc) none

/-- pathlib.PurePath.suffix: name[i:] for the last dot position i when
0 < i < len(name) - 1, and "" otherwise. -/
def pySuffix (p : String) : String :=
  let name := (lastComponent p).toList
  match lastIdxOfChar '.' name with
  | none => ""
  | some i => if 0 < i ∧ i < name.length - 1 then (name.drop i).asString else ""

/-- pathlib.PurePath.with_suffix(""): the path with the suffix removed from
its final component. -/
def withSuffixEmpty (p : String) : String :=
  let suf := pySuffix p
  if suf = "" then p
  else (p.toList.take (p.toList.length - suf.toList.length)).asString

/-- Python string comparison a <= b: lexicographic on code points. -/
def pyLeChars : List Char → List Char → Bool
  | [], _ => true
  | _ :: _, [] => false
  | a :: as, b :: bs =>
    if a.toNat < b.toNat then true
    else if b.toNat < a.toNat then false
    else pyLeChars as bs

/-- Python a <= b on strings. -/
def pyStrLe (a b : String) : Bool :=
  pyLeChars a.toList b.toList

/-- Insert a string into an already nondecreasing list, before the first
entry it is <= to (a stable insertion, like Python's stable sort). -/
def pyInsertSorted (x : String) : List String → List String
  | [] => [x]
  | y :: ys => if pyStrLe x y then x :: y :: ys else y :: pyInsertSorted x ys

/-- Python sorted() over strings, as insertion sort. -/
def pySorted (l : List String) : List String :=
  l.foldr pyInsertSorted []

/-- engine.SUPPORTED_SUFFIXES. -/
def SUPPORTED_SUFFIXES : List String :=
  [".py", ".js", ".jsx", ".ts", ".tsx", ".c", ".cc", ".cpp", ".h", ".hpp", ".hh"]

/-- utils.is_included: the include globs accept the path and the exclude
globs do not (the fnmatch decisions travel inside RulesConfig). -/
def is_included (path : String) (rules : RulesConfig) : Bool :=
  rules.includeMatch path && !(rules.excludeMatch path)

/-- engine._language_for_path. -/
def languageForPath (rel_path : String) : String :=
  let suffix := pyLower (pySuffix rel_path)
  if suffix = ".py" then "python"
  else if suffix ∈ [".js", ".jsx", ".ts", ".tsx"] then "javascript"
  else if suffix ∈ [".c", ".cc", ".cpp", ".h", ".hpp", ".hh"] then "cpp"
  else "unknown"

/-- The last list index holding the given string (engine's
max(index for ...) over an enumeration, meaningful when present). -/
def lastIdxOf (x : String) (l : List String) : Nat :=
  l.enum.foldl (fun acc q => if q.2 = x then q.1 else acc) 0

/-- engine._python_module_name. -/
def pythonModuleName (rel_path : String) : String :=
  let parts0 := posixParts (withSuffixEmpty rel_path)
  let parts := if parts0.getLast? = some "__init__" then parts0.dropLast else parts0
  if parts = [] then ""
  else if "src" ∈ parts.dropLast then
    let idx := lastIdxOf "src" parts.dropLast
    if idx + 1 < parts.length then pyJoin "." (parts.drop (idx + 1))
    else pyJoin "." parts
  else pyJoin "." parts

/-- The outcome of Path.read_text on one file of the tree. -/
inductive ReadResult where
  | ok (s : String)
  | decodeErr
  | osErr
  deriving DecidableEq, Repr

/-- The uncaught exception the embedded pipeline can propagate. -/
inductive PyExc where
  | osError
  deriving DecidableEq, Repr

/-- engine.discover_source_files: regular files with a supported suffix that
pass is_included, sorted. -/
def discoverSourceFiles (tree : List (String × ReadResult)) (rules : RulesConfig) :
    List String :=
  pySorted ((tree.map Prod.fst).filter (fun rel =>
    decide (pyLower (pySuffix rel) ∈ SUPPORTED_SUFFIXES) && is_included rel rules))

/-- engine.discover_eligible_files: regular files with a supported suffix
not hit by an exclude glob, sorted. -/
def discoverEligibleFiles (tree : List (String × ReadResult)) (rules : RulesConfig) :
    List String :=
  pySorted ((tree.map Prod.fst).filter (fun rel =>
    decide (pyLower (pySuffix rel) ∈ SUPPORTED_SUFFIXES) && !(rules.excludeMatch rel)))

/-- engine._create_modules. -/
def createModules (sid : List String → String) (rel_files : List String) :
    List ModuleFact :=
  rel_files.map (fun rel =>
    let language := languageForPath rel
    let name := if language = "python" then pythonModuleName rel else rel
    { id := sid ["module", rel]
      name := name
      path := rel
      language := language })

/-- common.AnalyzerContext (repo_root carried as its posix string). -/
structure AnalyzerContext where
  repo_root : String
  module_by_relpath : List (String × ModuleFact)
  python_name_to_module_id : List (String × String)
  js_relpath_to_module_id : List (String × String)
  deriving Repr

/-- common.AnalyzerResult. -/
structure AnalyzerResult where
  symbols : List SymbolFact
  interfaces : List InterfaceFact
  edges : List EdgeFact
  evidences : List Evidence
  deriving DecidableEq, Repr

/-- common.AnalyzerResult.empty. -/
def AnalyzerResult.empty : AnalyzerResult :=
  { symbols := [], interfaces := [], edges := [], evidences := [] }

/-- python_analyzer.analyze_python_file's control shell: file_path.read_text
stands as the ReadResult; only UnicodeDecodeError and SyntaxError are
caught (yielding the empty result); a read OSError propagates. The AST walk
after a successful parse is the threaded walkTree collaborator. -/
def analyzePythonFile {σ : Type} (parseSource : String → Option σ)
    (walkTree : σ → String → ModuleFact → AnalyzerContext → AnalyzerResult)
    (read : ReadResult) (rel_path : String) (module : ModuleFact)
    (context : AnalyzerContext) : Except PyExc AnalyzerResult :=
  match read with
  | .osErr => .error PyExc.osError
  | .decodeErr => .ok AnalyzerResult.empty
  | .ok source =>
    match parseSource source with
    | none => .ok AnalyzerResult.empty
    | some tree => .ok (walkTree tree rel_path module context)

/-- js_analyzer.analyze_js_file's control shell: only UnicodeDecodeError is
caught; the line scan over the decoded source is the threaded collaborator. -/
def analyzeJsFile
    (scanSource : String → String → ModuleFact → AnalyzerContext → AnalyzerResult)
    (read : ReadResult) (rel_path : String) (module : ModuleFact)
    (context : AnalyzerContext) : Except PyExc AnalyzerResult :=
  match read with
  | .osErr => .error PyExc.osError
  | .decodeErr => .ok AnalyzerResult.empty
  | .ok source => .ok (scanSource source rel_path module context)

/-- cpp_analyzer.analyze_cpp_file's control shell, identical to the js one. -/
def analyzeCppFile
    (scanSource : String → String → ModuleFact → AnalyzerContext → AnalyzerResult)
    (read : ReadResult) (rel_path : String) (module : ModuleFact)
    (context : AnalyzerContext) : Except PyExc AnalyzerResult :=
  match read with
  | .osErr => .error PyExc.osError
  | .decodeErr => .ok AnalyzerResult.empty
  | .ok source => .ok (scanSource source rel_path module context)

/-- engine._extract_interface_name_from_line, over the HTTP_ROUTE_RE,
HTTP_METHOD_RE and AXIOS_METHOD_RE search collaborators (each returning the
regex's first capture group on a hit). -/
def extractInterfaceNameFromLine
    (routeSearch httpMethodSearch axiosMethodSearch : String → Option String)
    (line protocol direction : String) : String :=
  let route_match := routeSearch line
  let method_match :=
    match httpMethodSearch line with
    | some m => some m
    | none => axiosMethodSearch line
  let method :=
    match method_match with
    | some m => pyUpper m
    | none => "HTTP"
  let route := route_match.getD ""
  if route ≠ "" then
    if method ≠ "HTTP" then method ++ " " ++ route else "HTTP " ++ route
  else
    let compact := pyJoin " " (pySplitWs (pyStrip line))
    let snippet := if compact ≠ "" then pyTake compact 40 else protocol ++ " inferred"
    protocol ++ " " ++ direction ++ " " ++ snippet

/-- The running state of _infer_interfaces_from_rules: the two output lists
plus the evidence offset counter. -/
structure InferAcc where
  interfaces : List InterfaceFact
  evidences : List Evidence
  offset_evidence : Nat
  deriving DecidableEq, Repr

/-- One rule applied to one line inside _infer_interfaces_from_rules: skip
when the rule's regex misses, and for an HTTP rule also when the extracted
name has no '/'; otherwise append the evidence and the InterfaceFact and
advance the offset. -/
def inferRuleStep (sid : List String → String)
    (routeSearch httpMethodSearch axiosMethodSearch : String → Option String)
    (rel_path : String) (module : ModuleFact) (line_no : Nat) (line : String)
    (acc : InferAcc) (item : InterfaceRule) : InferAcc :=
  if ¬ item.patternTest line then acc
  else
    let evidence_id := sid [rel_path, Nat.repr line_no, "rule-regex",
      Nat.repr acc.offset_evidence]
    let evidence : Evidence :=
      { id := evidence_id
        file_path := rel_path
        line_start := line_no
        line_end := line_no
        parser := "rule-regex" }
    let interface_name := extractInterfaceNameFromLine routeSearch httpMethodSearch
      axiosMethodSearch line item.protocol item.direction
    if pyUpper item.protocol = "HTTP" ∧ ¬ (pyContainsChar interface_name '/' = true) then acc
    else
      let interface_id := sid [module.id, item.protocol, item.direction, evidence_id]
      { interfaces := acc.interfaces ++ [
          { id := interface_id
            module_id := module.id
            name := interface_name
            protocol := item.protocol
            direction := item.direction
            details := "Matched rule: " ++ item.patternStr
            evidence_id := evidence_id }]
        evidences := acc.evidences ++ [evidence]
        offset_evidence := acc.offset_evidence + 1 }

/-- engine._infer_interfaces_from_rules: every configured rule against every
source line (1-based), returning the interfaces and evidences. -/
def inferInterfacesFromRules (sid : List String → String)
    (routeSearch httpMethodSearch axiosMethodSearch : String → Option String)
    (source rel_path : String) (module : ModuleFact) (rules : RulesConfig)
    (offset_evidence : Nat) : List InterfaceFact × List Evidence :=
  let lines := pySplitlines source
  let final := lines.enum.foldl (fun acc q =>
    rules.interfaces.foldl (fun a item =>
      inferRuleStep sid routeSearch httpMethodSearch axiosMethodSearch rel_path module
        (q.1 + 1) q.2 a item) acc)
    { interfaces := [], evidences := [], offset_evidence := offset_evidence }
  (final.interfaces, final.evidences)

/-- The shared shape of engine's four _dedupe_* passes: keep the first item
for each key, preserving order. -/
def dedupeBy {α κ : Type} [DecidableEq κ] (key : α → κ) (items : List α) : List α :=
  (items.foldl (fun (acc : List α × List κ) item =>
    if key item ∈ acc.2 then acc else (acc.1 ++ [item], acc.2 ++ [key item]))
    ([], [])).1

/-- engine._dedupe_evidences (keyed on id). -/
def dedupeEvidences (items : List Evidence) : List Evidence :=
  dedupeBy Evidence.id items

/-- engine._dedupe_symbols (keyed on id). -/
def dedupeSymbols (items : List SymbolFact) : List SymbolFact :=
  dedupeBy SymbolFact.id items

/-- engine._dedupe_interfaces (keyed on module_id, name, protocol, direction). -/
def dedupeInterfaces (items : List InterfaceFact) : List InterfaceFact :=
  dedupeBy (fun i => (i.module_id, i.name, i.protocol, i.direction)) items

/-- engine._dedupe_edges (keyed on src, dst, kind, label). -/
def dedupeEdges (items : List EdgeFact) : List EdgeFact :=
  dedupeBy (fun e => (e.src_module_id, e.dst_module_id, e.kind, e.label)) items

/-- The external collaborators extract_facts composes: stable_id (sha1-16 of
the "|"-join), the Python ast parse, the three analyzer bodies, and the
engine's route/method regex searches. -/
structure EngineOracles (σ : Type) where
  sid : List String → String
  parsePython : String → Option σ
  pythonWalk : σ → String → ModuleFact → AnalyzerContext → AnalyzerResult
  jsScan : String → String → ModuleFact → AnalyzerContext → AnalyzerResult
  cppScan : String → String → ModuleFact → AnalyzerContext → AnalyzerResult
  routeSearch : String → Option String
  httpMethodSearch : String → Option String
  axiosMethodSearch : String → Option String

/-- The AnalyzerContext extract_facts builds from the module list (Python
dict comprehensions: a later duplicate key overwrites an earlier one). -/
def mkAnalyzerContext (repo_root : String) (modules : List ModuleFact) :
    AnalyzerContext :=
  { repo_root := repo_root
    module_by_relpath := modules.foldl (fun d item => dictSet d item.path item) []
    python_name_to_module_id :=
      (modules.filter (fun item => item.language = "python")).foldl
        (fun d item => dictSet d item.name item.id) []
    js_relpath_to_module_id :=
      (modules.filter (fun item => item.language = "javascript")).foldl
        (fun d item => dictSet d item.path item.id) [] }

/-- The engine's own read of the source for the rule pass: a decode error is
caught and yields "", an OSError propagates. -/
def engineRead : ReadResult → Except PyExc String
  | .ok s => .ok s
  | .decodeErr => .ok ""
  | .osErr => .error PyExc.osError

/-- The four fact lists extract_facts accumulates across modules. -/
structure SnapAcc where
  symbols : List SymbolFact
  interfaces : List InterfaceFact
  edges : List EdgeFact
  evidences : List Evidence
  deriving DecidableEq, Repr

/-- One iteration of extract_facts' module loop: dispatch on language (an
unknown language skips the whole body), extend the four lists with the
analyzer result, re-read the source, and run the rule-driven interface
inference at the current evidence count. -/
def moduleStep {σ : Type} (O : EngineOracles σ) (tree : List (String × ReadResult))
    (rules : RulesConfig) (context : AnalyzerContext) (acc : SnapAcc)
    (module : ModuleFact) : Except PyExc SnapAcc :=
  let read := (dictGet tree module.path).getD ReadResult.osErr
  let dispatch : Option (Except PyExc AnalyzerResult) :=
    if module.language = "python" then
      some (analyzePythonFile O.parsePython O.pythonWalk read module.path module context)
    else if module.language = "javascript" then
      some (analyzeJsFile O.jsScan read module.path module context)
    else if module.language = "cpp" then
      some (analyzeCppFile O.cppScan read module.path module context)
    else none
  match dispatch with
  | none => .ok acc
  | some (.error e) => .error e
  | some (.ok result) =>
    let acc1 : SnapAcc :=
      { symbols := acc.symbols ++ result.symbols
        interfaces := acc.interfaces ++ result.interfaces
        edges := acc.edges ++ result.edges
        evidences := acc.evidences ++ result.evidences }
    match engineRead read with
    | .error e => .error e
    | .ok source =>
      let q := inferInterfacesFromRules O.sid O.routeSearch O.httpMethodSearch
        O.axiosMethodSearch source module.path module rules acc1.evidences.length
      .ok { acc1 with
        interfaces := acc1.interfaces ++ q.1
        evidences := acc1.evidences ++ q.2 }

/-- Everything extract_facts computes that does not involve the run
timestamp: the snapshot's five fact lists and its metadata block. -/
structure CoreResult where
  modules : List ModuleFact
  symbols : List SymbolFact
  interfaces : List InterfaceFact
  edges : List EdgeFact
  evidences : List Evidence
  metadata : SnapshotMetadata
  deriving DecidableEq, Repr

/-- engine.extract_facts without the FactsSnapshot.create envelope:
discovery, module creation, coverage and language metadata, the analyzer
loop, and the four dedup passes. -/
def extractFactsCore {σ : Type} (O : EngineOracles σ)
    (tree : List (String × ReadResult)) (rules : RulesConfig)
    (repo_root : String) : Except PyExc CoreResult :=
  let rel_files := discoverSourceFiles tree rules
  let eligible_files := discoverEligibleFiles tree rules
  let modules := createModules O.sid rel_files
  let context := mkAnalyzerContext repo_root modules
  let missing_files := pySorted (dedupeBy (fun s => s)
    (eligible_files.filter (fun q => decide (¬ q ∈ rel_files))))
  let coverage_ratio : Rat :=
    if eligible_files = [] then 1
    else (rel_files.length : Rat) / (eligible_files.length : Rat)
  let coverage : Coverage :=
    { analyzed_files := rel_files.length
      eligible_files := eligible_files.length
      ratio := coverage_ratio
      missing_files_sample := missing_files.take 200 }
  let breakdown : LanguageBreakdown :=
    { python := modules.countP (fun item => item.language = "python")
      javascript := modules.countP (fun item => item.language = "javascript")
      cpp := modules.countP (fun item => item.language = "cpp")
      unknown := modules.countP (fun item => item.language = "unknown") }
  match modules.foldlM (moduleStep O tree rules context)
      ({ symbols := [], interfaces := [], edges := [], evidences := [] } : SnapAcc) with
  | .error e => .error e
  | .ok acc =>
    .ok { modules := modules
          symbols := dedupeSymbols acc.symbols
          interfaces := dedupeInterfaces acc.interfaces
          edges := dedupeEdges acc.edges
          evidences := dedupeEvidences acc.evidences
          metadata := { coverage := coverage, language_breakdown := breakdown } }

/-- engine.extract_facts: FactsSnapshot.create stamps created_at with the
run timestamp and snapshot_id with sha1-16 of "commit|root|created_at"; the
rest of the snapshot is the timestamp-free core. -/
def extractFacts {σ : Type} (O : EngineOracles σ)
    (tree : List (String × ReadResult)) (rules : RulesConfig)
    (commit_id repo_root created_at : String) : Except PyExc FactsSnapshot :=
  match extractFactsCore O tree rules repo_root with
  | .error e => .error e
  | .ok core =>
    .ok { snapshot_id := O.sid [commit_id, repo_root, created_at]
          commit_id := commit_id
          repo_root := repo_root
          created_at := created_at
          modules := core.modules
          symbols := core.symbols
          interfaces := core.interfaces
          edges := core.edges
          evidences := core.evidences
          metadata := core.metadata }

/-- The fields of an extraction outcome other than snapshot_id and
created_at (errors compared as errors). -/
def snapshotContentView (r : Except PyExc FactsSnapshot) :
    Except PyExc (String × String × List ModuleFact × List SymbolFact ×
      List InterfaceFact × List EdgeFact × List Evidence × SnapshotMetadata) :=
  match r with
  | .error e => .error e
  | .ok s => .ok (s.commit_id, s.repo_root, s.modules, s.symbols, s.interfaces,
      s.edges, s.evidences, s.metadata)

/-- C1: for a fixed file tree, rules configuration and commit id, two runs
of extract_facts differing only in the run timestamp agree on every
non-timestamp field of the outcome — commit id, repo root, the modules,
symbols, interfaces, edges and evidences lists (ids included), and the
coverage and language-breakdown metadata — or fail with the same
exception; the timestamp flows only into created_at (which is exactly the
timestamp) and snapshot_id (which is exactly the stable id of
commit|root|timestamp). -/
theorem extract_facts_deterministic_c1 {σ : Type} (O : EngineOracles σ)
    (tree : List (String × ReadResult)) (rules : RulesConfig)
    (commit_id repo_root t1 t2 : String) :
    snapshotContentView (extractFacts O tree rules commit_id repo_root t1) =
      snapshotContentView (extractFacts O tree rules commit_id repo_root t2) ∧
    Except.map FactsSnapshot.created_at
        (extractFacts O tree rules commit_id repo_root t1) =
      Except.map (fun _ => t1) (extractFactsCore O tree rules repo_root) ∧
    Except.map FactsSnapshot.snapshot_id
        (extractFacts O tree rules commit_id repo_root t1) =
      Except.map (fun _ => O.sid [commit_id, repo_root, t1])
        (extractFactsCore O tree rules repo_root) := by
  rcases hc : extractFactsCore O tree rules repo_root with e | core <;>
    simp [extractFacts, snapshotContentView, hc, Except.map]

/-- A module fact for exercising the analyzer shells. -/
def c5Module : ModuleFact :=
  { id := "m1", name := "a", path := "a.py", language := "python" }

/-- An analyzer context for exercising the analyzer shells. -/
def c5Context : AnalyzerContext :=
  { repo_root := "/repo"
    module_by_relpath := []
    python_name_to_module_id := []
    js_relpath_to_module_id := [] }

/-- C5 counterexample: an unreadable file (read_text raising OSError) is
caught by none of the three analyzers — the exception propagates instead of
yielding the empty result, contradicting the claim that the analyzers never
raise on unreadable input. -/
theorem analyzer_error_c5_counterexample :
    @analyzePythonFile Unit (fun _ => none) (fun _ _ _ _ => AnalyzerResult.empty)
        ReadResult.osErr "a.py" c5Module c5Context = .error PyExc.osError ∧
    analyzeJsFile (fun _ _ _ _ => AnalyzerResult.empty)
        ReadResult.osErr "a.js" c5Module c5Context = .error PyExc.osError ∧
    analyzeCppFile (fun _ _ _ _ => AnalyzerResult.empty)
        ReadResult.osErr "a.cpp" c5Module c5Context = .error PyExc.osError :=
  ⟨rfl, rfl, rfl⟩

/-- C5 (amended): each analyzer catches a UnicodeDecodeError and returns
the empty AnalyzerResult, the Python analyzer additionally catches a
SyntaxError from parsing and returns the empty result (a successful parse
hands the tree to the AST walk); but a read error (OSError) is caught by
none of the three analyzers and propagates, aborting the batch. -/
theorem analyzer_error_handling_c5 {σ : Type}
    (parseSource : String → Option σ)
    (walkTree : σ → String → ModuleFact → AnalyzerContext → AnalyzerResult)
    (jsScan cppScan : String → String → ModuleFact → AnalyzerContext → AnalyzerResult)
    (rel_path : String) (module : ModuleFact) (context : AnalyzerContext) :
    (analyzePythonFile parseSource walkTree ReadResult.decodeErr rel_path module
      context = .ok AnalyzerResult.empty) ∧
    (∀ source, parseSource source = none →
      analyzePythonFile parseSource walkTree (ReadResult.ok source) rel_path module
        context = .ok AnalyzerResult.empty) ∧
    (∀ source tree, parseSource source = some tree →
      analyzePythonFile parseSource walkTree (ReadResult.ok source) rel_path module
        context = .ok (walkTree tree rel_path module context)) ∧
    (analyzeJsFile jsScan ReadResult.decodeErr rel_path module context =
      .ok AnalyzerResult.empty) ∧
    (analyzeCppFile cppScan ReadResult.decodeErr rel_path module context =
      .ok AnalyzerResult.empty) ∧
    (analyzePythonFile parseSource walkTree ReadResult.osErr rel_path module context =
      .error PyExc.osError) ∧
    (analyzeJsFile jsScan ReadResult.osErr rel_path module context =
      .error PyExc.osError) ∧
    (analyzeCppFile cppScan ReadResult.osErr rel_path module context =
      .error PyExc.osError) := by
  refine ⟨rfl, ?_, ?_, rfl, rfl, rfl, rfl, rfl⟩
  · intro source h
    simp [analyzePythonFile, h]
  · intro source tree h
    simp [analyzePythonFile, h]

/-- Witness for C5 at concrete analyzers and sources. -/
theorem analyzer_error_handling_c5_witness :
    (@analyzePythonFile Unit (fun _ => none) (fun _ _ _ _ => AnalyzerResult.empty)
      (ReadResult.ok "x =") "a.py" c5Module c5Context = .ok AnalyzerResult.empty) ∧
    (@analyzePythonFile Unit (fun _ => some ()) (fun _ _ _ _ => AnalyzerResult.empty)
      (ReadResult.ok "x = 1") "a.py" c5Module c5Context =
        .ok ((fun (_ : Unit) (_ : String) (_ : ModuleFact) (_ : AnalyzerContext) =>
          AnalyzerResult.empty) () "a.py" c5Module c5Context)) ∧
    (analyzeJsFile (fun _ _ _ _ => AnalyzerResult.empty) ReadResult.decodeErr "a.js"
      c5Module c5Context = .ok AnalyzerResult.empty) :=
  ⟨(analyzer_error_handling_c5 (fun _ => none) (fun _ _ _ _ => AnalyzerResult.empty)
      (fun _ _ _ _ => AnalyzerResult.empty) (fun _ _ _ _ => AnalyzerResult.empty)
      "a.py" c5Module c5Context).2.1 "x =" rfl,
    (analyzer_error_handling_c5 (fun _ => some ()) (fun _ _ _ _ => AnalyzerResult.empty)
      (fun _ _ _ _ => AnalyzerResult.empty) (fun _ _ _ _ => AnalyzerResult.empty)
      "a.py" c5Module c5Context).2.2.1 "x = 1" () rfl,
    (@analyzer_error_handling_c5 Unit (fun _ => none)
      (fun _ _ _ _ => AnalyzerResult.empty) (fun _ _ _ _ => AnalyzerResult.empty)
      (fun _ _ _ _ => AnalyzerResult.empty) "a.js" c5Module c5Context).2.2.2.1⟩

lemma inferRuleStep_inv (sid : List String → String)
    (rS hM aM : String → Option String) (rel_path : String) (module : ModuleFact)
    (line_no : Nat) (line : String) (acc : InferAcc) (item : InterfaceRule)
    (h : (∀ f ∈ acc.interfaces, pyUpper f.protocol = "HTTP" →
        pyContainsChar f.name '/' = true) ∧
      acc.interfaces.length = acc.evidences.length) :
    (∀ f ∈ (inferRuleStep sid rS hM aM rel_path module line_no line acc item).interfaces,
      pyUpper f.protocol = "HTTP" → pyContainsChar f.name '/' = true) ∧
    (inferRuleStep sid rS hM aM rel_path module line_no line acc item).interfaces.length =
      (inferRuleStep sid rS hM aM rel_path module line_no line acc item).evidences.length := by
  simp only [inferRuleStep]
  by_cases h1 : item.patternTest line = true
  · rw [if_neg (fun hn => hn h1)]
    by_cases h2 : pyUpper item.protocol = "HTTP" ∧
        ¬ (pyContainsChar (extractInterfaceNameFromLine rS hM aM line item.protocol
          item.direction) '/' = true)
    · rw [if_pos h2]
      exact h
    · rw [if_neg h2]
      constructor
      · intro f hf
        try dsimp only at hf
        rcases List.mem_append.mp hf with hf | hf
        · exact h.1 f hf
        · rw [List.mem_singleton] at hf
          subst hf
          intro hH
          by_cases hc : pyContainsChar (extractInterfaceNameFromLine rS hM aM line
              item.protocol item.direction) '/' = true
          · exact hc
          · exact absurd ⟨hH, hc⟩ h2
      · show (acc.interfaces ++ [_]).length = (acc.evidences ++ [_]).length
        rw [List.length_append, List.length_append, h.2]
        rfl
  · rw [if_pos h1]
    exact h

lemma inferInterfaces_inv (sid : List String → String)
    (rS hM aM : String → Option String) (source rel_path : String)
    (module : ModuleFact) (rules : RulesConfig) (offset_evidence : Nat) :
    (∀ f ∈ (inferInterfacesFromRules sid rS hM aM source rel_path module rules
        offset_evidence).1,
      pyUpper f.protocol = "HTTP" → pyContainsChar f.name '/' = true) ∧
    (inferInterfacesFromRules sid rS hM aM source rel_path module rules
        offset_evidence).1.length =
      (inferInterfacesFromRules sid rS hM aM source rel_path module rules
        offset_evidence).2.length := by
  have hP := foldl_pres
    (fun (acc : InferAcc) => (∀ f ∈ acc.interfaces, pyUpper f.protocol = "HTTP" →
        pyContainsChar f.name '/' = true) ∧
      acc.interfaces.length = acc.evidences.length)
    (fun acc (q : Nat × String) => rules.interfaces.foldl (fun a item =>
      inferRuleStep sid rS hM aM rel_path module (q.1 + 1) q.2 a item) acc)
    (fun a q ha => foldl_pres _
      (fun a item => inferRuleStep sid rS hM aM rel_path module (q.1 + 1) q.2 a item)
      (fun a item hh => inferRuleStep_inv sid rS hM aM rel_path module (q.1 + 1) q.2
        a item hh)
      rules.interfaces a ha)
    (pySplitlines source).enum
    { interfaces := [], evidences := [], offset_evidence := offset_evidence }
    ⟨fun f hf => absurd hf (List.not_mem_nil f), rfl⟩
  exact ⟨hP.1, hP.2⟩

/-- C8: in the rule-driven interface pass, every InterfaceFact produced by
an HTTP rule (protocol uppercasing to "HTTP") has a name containing '/';
interfaces and evidences are produced in lockstep (equal lengths); a line
matching an HTTP rule whose extracted name lacks '/' is silently skipped —
the step returns its accumulator unchanged, so neither an InterfaceFact nor
an Evidence is added and the evidence offset does not advance; and a match
that passes the filter appends exactly one evidence and one InterfaceFact
and advances the offset by one. -/
theorem http_slash_filter_c8 (sid : List String → String)
    (rS hM aM : String → Option String) (source rel_path : String)
    (module : ModuleFact) (rules : RulesConfig) (offset_evidence : Nat) :
    (∀ f ∈ (inferInterfacesFromRules sid rS hM aM source rel_path module rules
        offset_evidence).1,
      pyUpper f.protocol = "HTTP" → pyContainsChar f.name '/' = true) ∧
    (inferInterfacesFromRules sid rS hM aM source rel_path module rules
        offset_evidence).1.length =
      (inferInterfacesFromRules sid rS hM aM source rel_path module rules
        offset_evidence).2.length ∧
    (∀ (line_no : Nat) (line : String) (acc : InferAcc) (item : InterfaceRule),
      item.patternTest line = true →
      pyUpper item.protocol = "HTTP" →
      pyContainsChar (extractInterfaceNameFromLine rS hM aM line item.protocol
        item.direction) '/' = false →
      inferRuleStep sid rS hM aM rel_path module line_no line acc item = acc) ∧
    (∀ (line_no : Nat) (line : String) (acc : InferAcc) (item : InterfaceRule),
      item.patternTest line = true →
      (pyUpper item.protocol = "HTTP" →
        pyContainsChar (extractInterfaceNameFromLine rS hM aM line item.protocol
          item.direction) '/' = true) →
      inferRuleStep sid rS hM aM rel_path module line_no line acc item =
        { interfaces := acc.interfaces ++ [
            { id := sid [module.id, item.protocol, item.direction,
                sid [rel_path, Nat.repr line_no, "rule-regex",
                  Nat.repr acc.offset_evidence]]
              module_id := module.id
              name := extractInterfaceNameFromLine rS hM aM line item.protocol
                item.direction
              protocol := item.protocol
              direction := item.direction
              details := "Matched rule: " ++ item.patternStr
              evidence_id := sid [rel_path, Nat.repr line_no, "rule-regex",
                Nat.repr acc.offset_evidence] }]
          evidences := acc.evidences ++ [
            { id := sid [rel_path, Nat.repr line_no, "rule-regex",
                Nat.repr acc.offset_evidence]
              file_path := rel_path
              line_start := line_no
              line_end := line_no
              parser := "rule-regex" }]
          offset_evidence := acc.offset_evidence + 1 }) := by
  refine ⟨(inferInterfaces_inv sid rS hM aM source rel_path module rules
      offset_evidence).1,
    (inferInterfaces_inv sid rS hM aM source rel_path module rules
      offset_evidence).2, ?_, ?_⟩
  · intro line_no line acc item hpt hH hc
    simp only [inferRuleStep]
    rw [if_neg (fun hn => hn hpt), if_pos ⟨hH, by simp [hc]⟩]
  · intro line_no line acc item hpt himp
    simp only [inferRuleStep]
    rw [if_neg (fun hn => hn hpt), if_neg (fun hx => hx.2 (himp hx.1))]

/-- The stable-id collaborator for the C8 witness: the "|"-join sha1-16
hashes. -/
def c8Sid (parts : List String) : String :=
  pyJoin "|" parts

/-- A route-regex collaborator that always captures "/api". -/
def c8RouteHit : String → Option String :=
  fun _ => some "/api"

/-- A regex collaborator that never matches. -/
def c8NoHit : String → Option String :=
  fun _ => none

/-- An HTTP interface rule whose regex accepts every line. -/
def c8Rule : InterfaceRule :=
  { patternStr := "route", patternTest := fun _ => true, protocol := "HTTP",
    direction := "in" }

/-- A rules configuration holding only `c8Rule`. -/
def c8Rules : RulesConfig :=
  { system_name := "sys"
    module_depth := 2
    includeMatch := fun _ => true
    excludeMatch := fun _ => false
    layers := []
    default_layer := "Backend"
    interfaces := [c8Rule] }

/-- The module fact the C8 witness analyzes. -/
def c8Module : ModuleFact :=
  { id := "m1", name := "mod", path := "a.py", language := "python" }

/-- The InterfaceFact the witness run produces for the line "app.get". -/
def c8Fact : InterfaceFact :=
  { id := "m1|HTTP|in|a.py|1|rule-regex|0"
    module_id := "m1"
    name := "HTTP /api"
    protocol := "HTTP"
    direction := "in"
    details := "Matched rule: route"
    evidence_id := "a.py|1|rule-regex|0" }

/-- Witness for C8: a produced HTTP fact carries '/', lengths agree on a
concrete run, and a route-less HTTP match against the line "ping" leaves
the accumulator untouched. -/
theorem http_slash_filter_c8_witness :
    pyContainsChar c8Fact.name '/' = true ∧
    (inferInterfacesFromRules c8Sid c8RouteHit c8NoHit c8NoHit "app.get" "a.py"
        c8Module c8Rules 0).1.length =
      (inferInterfacesFromRules c8Sid c8RouteHit c8NoHit c8NoHit "app.get" "a.py"
        c8Module c8Rules 0).2.length ∧
    inferRuleStep c8Sid c8NoHit c8NoHit c8NoHit "a.py" c8Module 1 "ping"
      { interfaces := [], evidences := [], offset_evidence := 0 } c8Rule =
      { interfaces := [], evidences := [], offset_evidence := 0 } :=
  ⟨(http_slash_filter_c8 c8Sid c8RouteHit c8NoHit c8NoHit "app.get" "a.py" c8Module
      c8Rules 0).1 c8Fact (by decide) (by decide),
    (http_slash_filter_c8 c8Sid c8RouteHit c8NoHit c8NoHit "app.get" "a.py" c8Module
      c8Rules 0).2.1,
    (http_slash_filter_c8 c8Sid c8NoHit c8NoHit c8NoHit "x" "a.py" c8Module
      c8Rules 0).2.2.1 1 "ping"
      { interfaces := [], evidences := [], offset_evidence := 0 } c8Rule rfl
      (by decide) (by decide)⟩

end ArchSync
